import Mathlib

/-!
Verification of the directory-tree traversal-and-transfer engine and the
task-bundling / scheduler-submission pipeline of this repository
(`lib/script_utils.py`, driver `file_transfer.py`).

Shallow embedding conventions:
* Filesystem paths are lists of path segments (`List String`); a source
  directory tree is the inductive `FSTree` (ordered subdirectory and file
  listings, as returned by `os.scandir`/`os.listdir`).
* Compiled regex/glob patterns are abstracted as `String → Bool` predicates
  (`re.Pattern` matching after `fnmatch.translate` compilation); substitution
  rules `(pattern, repl)` are abstracted as `String → String` functions
  (`re.sub`).
* `float('inf')` depth bounds are `Option Nat` with `none` = infinity.
* Filesystem side effects are events (`WEvent`, `ExecEvent`); existence
  queries on the destination tree are oracles (`List String → Bool` for
  directories, plus the list of directories created so far in the run).
* Recursive traversal uses a fuel parameter (structural recursion so that
  everything is kernel-computable); any fuel at least the tree size gives the
  exact behaviour of the Python recursion, and theorems carry the
  corresponding fuel hypothesis.
-/

/-- A source directory: named subdirectories (in listing order) and file
names (in listing order).  Mirrors the partition of `list_function(srcdir)`
results into `dnames` and `fnames` in `WalkObject._walk`. -/
inductive FSTree where
  | node (dirs : List (String × FSTree)) (files : List String)

def FSTree.dirs : FSTree → List (String × FSTree)
  | .node d _ => d

def FSTree.files : FSTree → List String
  | .node _ f => f

/-- Boolean no-duplicates check used for well-formedness of listings. -/
def nodupB : List String → Bool
  | [] => true
  | x :: xs => !xs.contains x && nodupB xs

/-- Tree well-formedness: every directory listing has distinct subdirectory
names and distinct file names (true of a real filesystem directory).
Fuel-based recursion over the nested tree; `fuel ≥ sizeOf t` suffices. -/
def FSTree.wfF : Nat → FSTree → Bool
  | 0, _ => false
  | fuel+1, .node dirs files =>
      nodupB (dirs.map Prod.fst) && nodupB files &&
      dirs.all (fun c => FSTree.wfF fuel c.2)

/-- `dirs.find?`-based child lookup, as used to locate the subtree the
traversal descends into for a given name. -/
def lookupChild (dirs : List (String × FSTree)) (n : String) : Option FSTree :=
  match dirs.find? (fun c => c.1 == n) with
  | some c => some c.2
  | none => none

/-- The subtree reached from `t` by following the relative path `p`. -/
def subtreeAt : FSTree → List String → Option FSTree
  | t, [] => some t
  | t, n :: p =>
      match lookupChild t.dirs n with
      | some c => subtreeAt c p
      | none => none

/-- `CopyMethod` runtime state (`lib/script_utils.py` class `CopyMethod`):
identifying data fixed by `__init__` plus the four options set by
`set_options`. -/
structure CopyMethod where
  copy_fn_name : String
  action_verb : String
  reverse_args : Bool
  copy_shcmd : Option String
  copy_shcmd_is_fmtstr : Bool
  copy_overwrite : Bool
  dryrun : Bool
  verbose : Bool
  debug : Bool
deriving DecidableEq

/-- `action_verb.upper()` from `CopyMethod.__init__` line 366. -/
def strUpper (s : String) : String := String.mk (s.data.map Char.toUpper)

/-- `COPY_METHOD_HARDLINK = CopyMethod(os.link, 'os.link', 'hardlinking')`
with the default options set in `__init__` (overwrite/dryrun/debug false,
verbose true). -/
def COPY_METHOD_HARDLINK : CopyMethod :=
  ⟨"os.link", strUpper "hardlinking", false, none, false, false, false, true, false⟩

/-- `COPY_METHOD_SYMLINK = CopyMethod(os.symlink, 'os.symlink', 'symlinking')`. -/
def COPY_METHOD_SYMLINK : CopyMethod :=
  ⟨"os.symlink", strUpper "symlinking", false, none, false, false, false, true, false⟩

/-- `COPY_METHOD_COPY_DEFAULT = CopyMethod(shutil.copy2, 'shutil.copy2', 'copying')`. -/
def COPY_METHOD_COPY_DEFAULT : CopyMethod :=
  ⟨"shutil.copy2", strUpper "copying", false, none, false, false, false, true, false⟩

/-- `CopyMethod.set_options` (only non-`None` arguments update; here all four
are supplied, as in `WalkObject.__init__` line 679 and
`file_transfer.perform_tasks`). -/
def CopyMethod.set_options (cm : CopyMethod)
    (copy_overwrite dryrun verbose debug : Bool) : CopyMethod :=
  { cm with copy_overwrite := copy_overwrite, dryrun := dryrun,
            verbose := verbose, debug := debug }

/-- Python `'... {} ... {}'.format(a, b)` on a template containing
placeholders; used for `copy_shcmd_is_fmtstr`.  The placeholder braces are
written with escapes. -/
def formatTwo (template a b : String) : String :=
  match template.splitOn "\x7b\x7d" with
  | [p, q, r] => p ++ a ++ q ++ b ++ r
  | _ => template

/-- `copy_shcmd_full` assembly, `CopyMethod.exec` lines 401-408. -/
def CopyMethod.copy_shcmd_full (cm : CopyMethod) (srcfile dstfile : String) :
    Option String :=
  match cm.copy_shcmd with
  | none => none
  | some c =>
      some (if cm.copy_shcmd_is_fmtstr then formatTwo c srcfile dstfile
            else if cm.reverse_args then c ++ " " ++ dstfile ++ " " ++ srcfile
            else c ++ " " ++ srcfile ++ " " ++ dstfile)

/-- A filesystem mutation performed by `CopyMethod.exec`. -/
inductive ExecEvent where
  | removeFile (p : String)
  | shell (cmd : String)
  | call (fn : String) (a b : String)
deriving DecidableEq

/-- The transfer primitive invocation of `CopyMethod.exec` lines 445-450:
either the shell command, or `copy_fn` applied in the encapsulated argument
order. -/
def CopyMethod.transfer_event (cm : CopyMethod) (srcfile dstfile : String) :
    ExecEvent :=
  match cm.copy_shcmd_full srcfile dstfile with
  | some c => ExecEvent.shell c
  | none =>
      if cm.reverse_args then ExecEvent.call cm.copy_fn_name dstfile srcfile
      else ExecEvent.call cm.copy_fn_name srcfile dstfile

/-- Result of one `CopyMethod.exec` call: the printed log lines, the
filesystem mutations performed, the overwrite-action log fragment, and
whether the copy proceeded. -/
structure ExecResult where
  log : List String
  events : List ExecEvent
  overwrite_action : String
  proceeded : Bool
deriving DecidableEq

/-- `CopyMethod.exec(srcfile, dstfile)` (lines 400-450).  `dstfile_exists`
is the oracle for `os.path.isfile(dstfile)`; `filecmp_eq` is the oracle for
`filecmp.cmp(srcfile, dstfile)` (byte-content equality). -/
def CopyMethod.exec (cm : CopyMethod) (srcfile dstfile : String)
    (dstfile_exists : Bool) (filecmp_eq : Bool) : ExecResult :=
  let shcmdFull := cm.copy_shcmd_full srcfile dstfile
  let pa :=
    if dstfile_exists then
      if cm.copy_overwrite then (true, "OVERWRITING")
      else
        let dstfileIsSrcfile :=
          if cm.action_verb == "HARDLINKING" || cm.action_verb == "LINKING" then
            filecmp_eq
          else false
        if dstfileIsSrcfile then (false, "SKIPPING; correct link already exists")
        else (false, "SKIPPING; destination file already exists")
    else (true, "")
  let proceed := pa.1
  let action := pa.2
  let log1 :=
    if cm.verbose then
      [(if cm.dryrun then "(dryrun) " else "") ++ cm.action_verb ++ ": " ++
        srcfile ++ " -> " ++ dstfile ++
        (if dstfile_exists then " (" ++ action ++ ")" else "")]
    else []
  if !proceed then ⟨log1, [], action, false⟩ else
  let log2 :=
    if cm.debug then
      [match shcmdFull with
       | some c => c
       | none => cm.copy_fn_name ++ "(" ++ srcfile ++ ", " ++ dstfile ++ ")"]
    else []
  let events :=
    if !cm.dryrun then
      (if dstfile_exists && cm.copy_overwrite then [ExecEvent.removeFile dstfile]
       else []) ++ [cm.transfer_event srcfile dstfile]
    else []
  ⟨log1 ++ log2, events, action, true⟩

/-- An observable step of a `WalkObject` traversal: a destination directory
creation (`os.makedirs`), a `CopyMethod.exec` invocation on a
(source file, destination file) pair, or one generator yield
`(srcdir, dnames_filtered, fnames_filtered)`. -/
inductive WEvent where
  | mkdirs (path : List String)
  | execCall (src dst : List String)
  | yld (dir : List String) (dnames fnames : List String)
deriving DecidableEq

/-- `WalkObject` traversal configuration: the instance attributes read by
`_walk` (set up in `__init__`/`walk`). -/
structure WalkCfg where
  mindepth : Nat
  maxdepth : Option Nat
  dmatch_maxdepth : Option Nat
  dmatch_nomaxdepth : Bool
  fname_rematch : List (String → Bool)
  fname_reexcl : List (String → Bool)
  dname_rematch : List (String → Bool)
  dname_reexcl : List (String → Bool)
  fname_resub : List (String → String)
  dname_resub : List (String → String)
  copy_method : Option CopyMethod
  collapse_tree : Bool
  mkdir_upon_file_copy : Bool

/-- `depth > self.maxdepth` with `maxdepth` possibly `float('inf')`. -/
def natGtOpt (d : Nat) : Option Nat → Bool
  | none => false
  | some m => m < d

/-- `depth < self.maxdepth` with `maxdepth` possibly `float('inf')`. -/
def natLtOpt (d : Nat) : Option Nat → Bool
  | none => true
  | some m => d < m

/-- `dmatch_depth <= self.dmatch_maxdepth` with the bound possibly
`float('inf')`; `dmatch_depth` can be negative. -/
def intLeOpt (d : Int) : Option Nat → Bool
  | none => true
  | some m => d ≤ (m : Int)

/-- The include/exclude matching loops of `_walk` (lines 744-755, 785-800,
802-813): the name matches when the include pattern list is empty or some
include pattern hits, and no exclude pattern hits.  (The Python loops
short-circuit on the first hit; this is their combined result.) -/
def nameMatches (rem excl : List (String → Bool)) (n : String) : Bool :=
  (rem.isEmpty || rem.any (fun p => p n)) && !(excl.any (fun p => p n))

/-- Sequential application of substitution rules (lines 824-826, 848-850). -/
def applyResubs (subs : List (String → String)) (n : String) : String :=
  subs.foldl (fun s f => f s) n

/-- The `dmatch_depth` successor for a subdirectory whose name matches the
directory patterns (`dmatch_depth_next_pass`, line 837). -/
def passNextOf (d : Int) : Int := if d < 0 then d else 1

/-- The `dmatch_depth` successor for a subdirectory whose name fails the
directory patterns (`dmatch_depth_next_fail`, line 838). -/
def failNextOf (d : Int) : Int := if d ≤ 0 then d else d + 1

/-- The `dmatch_depth` transition into a named subdirectory (lines
837-841). -/
def dmatchStep (cfg : WalkCfg) (d : Int) (n : String) : Int :=
  if nameMatches cfg.dname_rematch cfg.dname_reexcl n then passNextOf d
  else failNextOf d

/-- `srcdname_passes` (line 759) as a function of the `dmatch_depth`. -/
def dirPassesB (cfg : WalkCfg) (d : Int) : Bool :=
  intLeOpt d cfg.dmatch_maxdepth && d != 0

/-- The depth-1 source-root name matching of `_walk` lines 742-757: at the
root (depth 1, `dmatch_depth` 0) the root directory's own basename is
matched against the directory patterns. -/
def dmatchEntry (cfg : WalkCfg) (srcpath : List String) (depth : Nat)
    (d : Int) : Int :=
  if depth = 1 ∧ d = 0 then
    (if nameMatches cfg.dname_rematch cfg.dname_reexcl (srcpath.getLastD "")
     then 1 else 0)
  else d

/-- The destination-existence check with eager `os.makedirs` of `_walk`
lines 761-771: returns (`dstdir_exists`, emitted events, updated created
set).  Note the eager branch does not consult `dryrun`. -/
def eagerMkdirStep (cfg : WalkCfg) (dstIsDir : List String → Bool)
    (dstdir : Option (List String)) (created : List (List String))
    (srcdnamePasses : Bool) : Bool × List WEvent × List (List String) :=
  match dstdir with
  | none => (false, [], created)
  | some d =>
      if cfg.copy_method.isNone then (false, [], created)
      else if dstIsDir d || created.contains d then (true, [], created)
      else if cfg.mkdir_upon_file_copy then (false, [], created)
      else if srcdnamePasses then (true, [WEvent.mkdirs d], d :: created)
      else (false, [], created)

/-- `fnames_filtered` (lines 801-815): files are matched only when the
directory itself passes. -/
def fnamesFilteredOf (cfg : WalkCfg) (srcdnamePasses : Bool)
    (files : List String) : List String :=
  if srcdnamePasses then
    files.filter (nameMatches cfg.fname_rematch cfg.fname_reexcl)
  else []

/-- `dnames_filtered` (lines 829-832): all subdirectory names when the
directory passes under a `dmatch_maxdepth` regime or when no directory
patterns are configured (`dnames_pass is None`), else the per-name matching
subdirectories. -/
def dnamesFilteredOf (cfg : WalkCfg) (srcdnamePasses : Bool)
    (dnames : List String) : List String :=
  if srcdnamePasses && !cfg.dmatch_nomaxdepth then dnames
  else if cfg.dname_rematch.isEmpty && cfg.dname_reexcl.isEmpty then dnames
  else dnames.filter (nameMatches cfg.dname_rematch cfg.dname_reexcl)

/-- The copy block of `_walk` lines 818-828: when the directory passes and a
copy method and destination are configured, the lazy `os.makedirs` (dryrun-
guarded, line 819) followed by one `CopyMethod.exec` call per filtered file,
with the file-name substitution applied to the destination name. -/
def copySection (cfg : WalkCfg) (srcpath : List String)
    (dstdir : Option (List String)) (dstdirExists1 : Bool)
    (created1 : List (List String)) (srcdnamePasses : Bool)
    (fnamesFiltered : List String) : List WEvent × List (List String) :=
  match dstdir with
  | some d =>
      if srcdnamePasses && cfg.copy_method.isSome then
        let dry := match cfg.copy_method with
          | some cm => cm.dryrun
          | none => false
        let rMk : List WEvent × List (List String) :=
          if !dry && !dstdirExists1 &&
              (!cfg.mkdir_upon_file_copy || !fnamesFiltered.isEmpty) then
            ([WEvent.mkdirs d], d :: created1)
          else ([], created1)
        let execEvs := fnamesFiltered.map (fun fn =>
          WEvent.execCall (srcpath ++ [fn])
            (d ++ [applyResubs cfg.fname_resub fn]))
        (rMk.1 ++ execEvs, rMk.2)
      else ([], created1)
  | none => ([], created1)

/-- The child's destination directory (lines 842-851): unchanged under
`collapse_tree`, else the (substitution-renamed) child name is appended. -/
def childDstNext (cfg : WalkCfg) (dstdir : Option (List String))
    (dn : String) : Option (List String) :=
  match dstdir with
  | none => none
  | some d =>
      if cfg.collapse_tree then some d
      else some (d ++ [applyResubs cfg.dname_resub dn])

/-- The child's `dmatch_depth` selected from the precomputed pass/fail
successors by the child's own directory-name match (lines 839-841). -/
def childDmatchNext (cfg : WalkCfg) (passNext failNext : Int)
    (dn : String) : Int :=
  if nameMatches cfg.dname_rematch cfg.dname_reexcl dn then passNext
  else failNext

/-- The per-child loop of `_walk` lines 839-853: each subdirectory is
traversed recursively with its own destination and `dmatch_depth`, events
concatenate in listing order, and the created-directory set threads
through.  `walkFn` is the recursive `_walk` call at depth+1. -/
def walkChildrenGo
    (walkFn : List String → Option (List String) → Int → List (List String) →
      FSTree → List WEvent × List (List String))
    (cfg : WalkCfg) (srcpath : List String) (dstdir : Option (List String))
    (passNext failNext : Int) :
    List (String × FSTree) → List (List String) → List WEvent × List (List String)
  | [], created => ([], created)
  | (dn, child) :: rest, created =>
      let r := walkFn (srcpath ++ [dn]) (childDstNext cfg dstdir dn)
        (childDmatchNext cfg passNext failNext dn) created child
      let r2 := walkChildrenGo walkFn cfg srcpath dstdir passNext failNext rest r.2
      (r.1 ++ r2.1, r2.2)

/-- `WalkObject._walk(srcdir, dstdir, depth, dmatch_depth)` (lines 739-853).

`dstIsDir` is the oracle for `os.path.isdir` on destination paths at the
start of the run; `created` accumulates destination directories made by
`os.makedirs` during the run, so the directory-existence test is
`dstIsDir p || created.contains p`.  The result is the ordered event list
(directory creations, `CopyMethod.exec` calls, generator yields) paired with
the updated `created` set.  `fuel ≥ sizeOf` of the tree reproduces the
unbounded Python recursion. -/
def WalkObject.walkF (cfg : WalkCfg) (dstIsDir : List String → Bool) :
    Nat → List String → Option (List String) → Nat → Int → List (List String) →
    FSTree → List WEvent × List (List String)
  | 0, _, _, _, _, created, _ => ([], created)
  | fuel+1, srcpath, dstdir, depth, dmatchDepth0, created, FSTree.node dirs files =>
    if natGtOpt depth cfg.maxdepth then ([], created) else
    -- lines 742-757: source root directory name matching
    let dmatchDepth := dmatchEntry cfg srcpath depth dmatchDepth0
    let srcdnamePasses := dirPassesB cfg dmatchDepth
    -- lines 761-771: destination existence check with eager makedirs
    let r0 := eagerMkdirStep cfg dstIsDir dstdir created srcdnamePasses
    let dstdirExists1 := r0.1
    let ev0 := r0.2.1
    let created1 := r0.2.2
    -- lines 773-815: listing partition and name filtering
    let dnames := dirs.map Prod.fst
    let fnamesFiltered := fnamesFilteredOf cfg srcdnamePasses files
    -- lines 817-833: copy section and yield
    let rMid : List WEvent × List (List String) :=
      if cfg.mindepth ≤ depth then
        let rCopy := copySection cfg srcpath dstdir dstdirExists1 created1
          srcdnamePasses fnamesFiltered
        (rCopy.1 ++ [WEvent.yld srcpath (dnamesFilteredOf cfg srcdnamePasses dnames)
          fnamesFiltered], rCopy.2)
      else ([], created1)
    -- lines 835-853: recursion into subdirectories
    let rKids : List WEvent × List (List String) :=
      if !dnames.isEmpty && natLtOpt depth cfg.maxdepth then
        walkChildrenGo
          (fun sp dst dm cr t =>
            WalkObject.walkF cfg dstIsDir fuel sp dst (depth+1) dm cr t)
          cfg srcpath dstdir (passNextOf dmatchDepth) (failNextOf dmatchDepth)
          dirs rMid.2
      else ([], rMid.2)
    (ev0 ++ rMid.1 ++ rKids.1, rKids.2)

/-- The initial `dmatch_depth` for a traversal (`walk` line 734):
`-1 if self.dmatch_nomaxdepth else 0`. -/
def WalkObject.dmatchInit (cfg : WalkCfg) : Int :=
  if cfg.dmatch_nomaxdepth then -1 else 0

/-- Errors raised inside `WalkObject`: `InvalidArgumentError` (all explicit
`raise` sites of `__init__`/`walk`) and `FileExistsError` (raised by
`os.makedirs` on an existing path). -/
inductive WalkError where
  | invalidArgument (msg : String)
  | fileExists (path : List String)
deriving DecidableEq

/-- `os.makedirs(path)` (default `exist_ok=False`): raises `FileExistsError`
when the target directory already exists, otherwise creates it. -/
def makedirsM (isdir : List String → Bool) (p : List String) :
    Except WalkError Unit :=
  if isdir p then Except.error (WalkError.fileExists p) else Except.ok Unit.unit

/-- The entry checks of `WalkObject.walk(srcdir, dstdir, ...)`
(lines 703-731), before the `_walk` generator loop:
source-existence check, transplant-tree destination adjustment, and the
destination `os.makedirs` guarded by `os.path.isdir(self.dstdir)`.
Path normalization (`os.path.normpath`/`expanduser`) is omitted: paths are
already-normalized segment lists.  The `copy_overwrite`/`collapse_tree`
per-call overrides only re-derive fields already carried by `cfg`, so `cfg`
holds the effective values.  Returns the destination root used by `_walk`. -/
def WalkObject.walkStart (cfg : WalkCfg) (srcdir : List String)
    (dstdir0 : Option (List String)) (transplant_tree : Bool)
    (srcIsDir : Bool) (dstIsDir : List String → Bool) :
    Except WalkError (Option (List String)) :=
  if !srcIsDir then
    Except.error (WalkError.invalidArgument "`srcdir` directory does not exist")
  else
    let dstdir :=
      if transplant_tree then dstdir0.map (fun d => d ++ [srcdir.getLastD ""])
      else dstdir0
    match cfg.copy_method, dstdir with
    | some _, some d =>
        if dstIsDir d then (makedirsM dstIsDir d).map (fun _ => dstdir)
        else Except.ok dstdir
    | _, _ => Except.ok dstdir

/-- `WalkObject.walk` as a whole: the entry checks of `walkStart` followed by
the `_walk` traversal from depth 1 with the initial `dmatch_depth`. -/
def WalkObject.walk (cfg : WalkCfg) (fuel : Nat) (srcdir : List String)
    (dstdir0 : Option (List String)) (transplant_tree : Bool)
    (srcIsDir : Bool) (dstIsDir : List String → Bool) (tree : FSTree) :
    Except WalkError (List WEvent) :=
  match WalkObject.walkStart cfg srcdir dstdir0 transplant_tree srcIsDir dstIsDir with
  | Except.error e => Except.error e
  | Except.ok dstdir =>
      Except.ok (WalkObject.walkF cfg dstIsDir fuel srcdir dstdir 1
        (WalkObject.dmatchInit cfg) [] tree).1

/-- Constructor arguments of `WalkObject.__init__` relevant to validation:
depth bounds as Python numbers (`Option` = argument possibly `None`; the
`float('inf')` default of `maxdepth` is `none`), pattern arguments as
already-compiled predicate lists (`none` = argument not given), and the
behavioural flags. -/
structure WalkObjectArgs where
  mindepth : Int
  maxdepth : Option Int
  dmatch_maxdepth : Option Int
  fmatch : Option (List (String → Bool))
  fmatch_re : Option (List (String → Bool))
  fexcl : Option (List (String → Bool))
  fexcl_re : Option (List (String → Bool))
  dmatch : Option (List (String → Bool))
  dmatch_re : Option (List (String → Bool))
  dexcl : Option (List (String → Bool))
  dexcl_re : Option (List (String → Bool))
  fsub : Option (List (String → String))
  dsub : Option (List (String → String))
  copy_method : Option CopyMethod
  copy_shcmd_fmtstr : Option String
  copy_overwrite : Bool
  transplant_tree : Bool
  collapse_tree : Bool
  copy_dryrun : Bool
  copy_silent : Bool
  copy_debug : Bool
  mkdir_upon_file_copy : Bool
  list_function_valid : Bool

/-- `WalkObject.__init__` (lines 535-701): the validation sequence and the
assembly of the traversal configuration.  Pattern compilation
(`fnmatch.translate`, `re.compile`, fullmatch anchoring) is abstracted away
since patterns are modelled as predicates; the explicit `raise
InvalidArgumentError` sites for the depth bounds, the
`copy_method`/`copy_shcmd_fmtstr` conflict, the `copy_silent`/`copy_dryrun`
conflict and the `list_function` check (lines 550-562) are translated in
order.  A `copy_shcmd_fmtstr` becomes the effective copy method (line 555);
`dmatch_nomaxdepth`/`dmatch_maxdepth` follow lines 564-572; the copy
method's options are set per line 679. -/
def WalkObject.init (a : WalkObjectArgs) : Except WalkError WalkCfg :=
  if a.mindepth < 0 ||
      (match a.maxdepth with | some m => decide (m < 0) | none => false) ||
      (match a.dmatch_maxdepth with | some m => decide (m < 0) | none => false) then
    Except.error (WalkError.invalidArgument "depth arguments must be >= 0")
  else if a.copy_method.isSome ∧ a.copy_shcmd_fmtstr.isSome then
    Except.error (WalkError.invalidArgument
      "`copy_method` and `copy_shcmd_fmtstr` arguments are mutually exclusive")
  else
    let copyMethodEff : Option CopyMethod :=
      match a.copy_shcmd_fmtstr with
      | some s => some ⟨s, strUpper "transferring", false, some s, true,
                        false, false, true, false⟩
      | none => a.copy_method
    if a.copy_silent ∧ a.copy_dryrun then
      Except.error (WalkError.invalidArgument
        "`copy_silent` and `copy_dryrun` arguments are mutually exclusive")
    else if ¬a.list_function_valid then
      Except.error (WalkError.invalidArgument
        "`list_function` must be either os.listdir or os.scandir")
    else
      let dmatchNomax :=
        if a.dmatch.isNone ∧ a.dmatch_re.isNone then true
        else if copyMethodEff.isNone then a.dmatch_maxdepth.isNone
        else false
      Except.ok
        { mindepth := a.mindepth.toNat
          maxdepth := a.maxdepth.map Int.toNat
          dmatch_maxdepth := a.dmatch_maxdepth.map Int.toNat
          dmatch_nomaxdepth := dmatchNomax
          fname_rematch := a.fmatch.getD [] ++ a.fmatch_re.getD []
          fname_reexcl := a.fexcl.getD [] ++ a.fexcl_re.getD []
          dname_rematch := a.dmatch.getD [] ++ a.dmatch_re.getD []
          dname_reexcl := a.dexcl.getD [] ++ a.dexcl_re.getD []
          fname_resub := a.fsub.getD []
          dname_resub := a.dsub.getD []
          copy_method := copyMethodEff.map (fun cm =>
            cm.set_options a.copy_overwrite a.copy_dryrun (!a.copy_silent)
              a.copy_debug)
          collapse_tree := a.collapse_tree
          mkdir_upon_file_copy := a.mkdir_upon_file_copy }

/-! ### Task bundling (`write_task_bundles` / `read_task_bundle`)

Bundle file text is modelled at character level (`List Char`) so that the
line/field structure of the written file is explicit.  The functions below
translate the pure-Python branches of `write_task_bundles` and
`read_task_bundle` (the branches taken when `numpy` is unavailable; for
string-typed task tuples `np.savetxt(..., fmt='%s', delimiter=d)` writes the
same delimiter-joined lines as the manual branch). -/

/-- Split a character list on a separator character (the separator is
consumed; `n+1` fields for `n` separators, like Python `str.split(sep)`). -/
def splitOnC (c : Char) : List Char → List (List Char)
  | [] => [[]]
  | x :: xs =>
      match splitOnC c xs with
      | [] => [[x]]
      | h :: t => if x = c then [] :: h :: t else (x :: h) :: t

/-- Python `str.splitlines()` restricted to `'\n'`-terminated text: splits on
newlines and does not produce a final empty line for trailing `'\n'`. -/
def splitlinesC (s : List Char) : List (List Char) :=
  if s.isEmpty then []
  else
    let parts := splitOnC '\n' s
    if parts.getLast? = some [] then parts.dropLast else parts

/-- Python whitespace for `str.strip()` (ASCII subset). -/
def pyIsSpace (c : Char) : Bool :=
  c = ' ' || c = '\t' || c = '\n' || c = '\r' || c = '\x0b' || c = '\x0c'

/-- Python `str.strip()`. -/
def stripC (s : List Char) : List Char :=
  ((s.dropWhile pyIsSpace).reverse.dropWhile pyIsSpace).reverse

/-- Python `delim.join(items)`. -/
def joinC (delim : Char) : List (List Char) → List Char
  | [] => []
  | [x] => x
  | x :: y :: xs => x ++ delim :: joinC delim (y :: xs)

/-- The pad width encoded by `get_index_fmtstr(num_items, min_digits=3)`
(lines 1532-1533), which returns the format string `'{:0>W}'` with
`W = max(min_digits, len(str(num_items)))`. -/
def get_index_fmtstr_width (num_items : Nat) (min_digits : Nat) : Nat :=
  max min_digits (toString num_items).length

/-- Application of the `'{:0>W}'` format string to a job number: the decimal
rendering left-padded with `'0'` to width `W`. -/
def formatZeroPad (width : Nat) (jobnum : Nat) : String :=
  let s := toString jobnum
  String.mk (List.replicate (width - s.length) '0' ++ s.data)

/-- `write_task_bundles(task_list, tasks_per_bundle, dstdir, bundle_prefix,
task_delim)` (lines 1536-1566) for task tuples of strings: returns the
(bundle file name, file text) pairs in creation order.  The loop
`for jobnum, tasknum in enumerate(range(0, len(task_list), tasks_per_bundle), 1)`
is rendered as a map over the chunk indices; chunk `j` is
`task_list[j*B : j*B + B]`.  Each task tuple is written as one
delimiter-joined line (`join_task_items` path, since tasks are tuples);
the `len(task_bundle) == 0` branch (lines 1554-1556, an empty file) is kept
although no index produced by the range yields an empty slice.
`datetime.now()` is the `timestamp` parameter. -/
def write_task_bundles (task_list : List (List (List Char)))
    (tasks_per_bundle : Nat) (dstdir bundlePre timestamp : String)
    (task_delim : Char) : List (String × List Char) :=
  let bundlePrefixFull := dstdir ++ "/" ++ bundlePre ++ "_" ++ timestamp
  let jobnumTotal :=
    if tasks_per_bundle = 0 then 0
    else (task_list.length + tasks_per_bundle - 1) / tasks_per_bundle
  let width := get_index_fmtstr_width jobnumTotal 3
  (List.range jobnumTotal).map (fun j =>
    let bundle_file :=
      bundlePrefixFull ++ "_" ++ formatZeroPad width (j + 1) ++ ".txt"
    let task_bundle := (task_list.drop (j * tasks_per_bundle)).take tasks_per_bundle
    let content :=
      if task_bundle.isEmpty then []
      else (task_bundle.map (fun task => joinC task_delim task ++ ['\n'])).flatten
    (bundle_file, content))

/-- A parsed task entry of `read_task_bundle`: either a bare string (the
`allow_1d_task_list` collapse of single-column rows) or a column list. -/
inductive PyTask where
  | scalar (s : List Char)
  | row (cols : List (List Char))
deriving DecidableEq

/-- `read_task_bundle(bundle_file, args_dtype=str, ...)` (lines 1569-1663),
pure-Python branch, for string dtype (`args_dtype` application is the
identity).  `content` is the file text.  Errors are the `DimensionError`
raises (and the Python `TypeError` that `None < int` comparisons at lines
1653-1658 would produce when `ncol_min`/`ncol_max` are given but no column
counts were computed). -/
def read_task_bundle (content : List Char) (args_delim : Option Char)
    (header_rows : Nat) (ncol_strict : Bool) (ncol_min ncol_max : Option Nat)
    (allow_1d_task_list read_header : Bool) : Except String (List PyTask) :=
  let allLines := splitlinesC content
  let taskLines :=
    if read_header then
      ((allLines.take header_rows).map stripC).filter (fun l => !l.isEmpty)
    else
      let nonblank := allLines.filter (fun l => !(stripC l).isEmpty)
      if 0 < header_rows ∧ nonblank.length > 0 then nonblank.drop header_rows
      else nonblank
  let res : Except String (List PyTask × Option Nat × Option Nat) :=
    if taskLines.isEmpty then
      Except.ok ([], none, none)
    else
      match args_delim with
      | some d =>
          let rows := taskLines.map (fun task => (splitOnC d task).map stripC)
          let ncols := rows.map List.length
          let ncolsMin := ncols.foldr min (ncols.headD 0)
          let ncolsMax := ncols.foldr max 0
          let uniform : Option Nat :=
            if ncol_min.isSome ∨ ncol_max.isSome then
              (if ncolsMin = ncolsMax then some ncolsMin else none)
            else if ncol_strict then
              (if rows.all (fun r => r.length = (rows.headD []).length)
               then some (rows.headD []).length else none)
            else none
          -- `task_list_ncols is None` (line 1643) is `uniform = none` except
          -- in the `ncol_min`/`ncol_max` branch, where an inconsistent count
          -- leaves `task_list_ncols` bound to a list (not `None`).
          if ncol_strict ∧ uniform.isNone ∧ ncol_min.isNone ∧ ncol_max.isNone then
            Except.error "DimensionError: Inconsistent number of columns in `bundle_file`"
          else
            let tasks :=
              if allow_1d_task_list ∧ ¬read_header then
                rows.map (fun r =>
                  match r with
                  | [a] => PyTask.scalar a
                  | _ => PyTask.row r)
              else rows.map PyTask.row
            let cminmax :=
              if ncol_min.isSome ∨ ncol_max.isSome then
                (some ncolsMin, some ncolsMax)
              else (none, none)
            Except.ok (tasks, cminmax.1, cminmax.2)
      | none =>
          if ¬allow_1d_task_list ∨ read_header then
            Except.ok (taskLines.map (fun l => PyTask.row [stripC l]), none, none)
          else
            Except.ok (taskLines.map (fun l => PyTask.scalar (stripC l)), none, none)
  match res with
  | Except.error e => Except.error e
  | Except.ok (tasks, cmin, cmax) =>
      match ncol_min with
      | some m =>
          match cmin with
          | none => Except.error "TypeError: NoneType comparison"
          | some c =>
              if c < m then
                Except.error "DimensionError: fewer columns than required minimum"
              else
                match ncol_max with
                | some mx =>
                    match cmax with
                    | none => Except.error "TypeError: NoneType comparison"
                    | some cx =>
                        if mx < cx then
                          Except.error "DimensionError: more columns than required maximum"
                        else if read_header then
                          match tasks with
                          | [PyTask.row cols] => Except.ok (cols.map PyTask.scalar)
                          | _ => Except.ok tasks
                        else Except.ok tasks
                | none =>
                    if read_header then
                      match tasks with
                      | [PyTask.row cols] => Except.ok (cols.map PyTask.scalar)
                      | _ => Except.ok tasks
                    else Except.ok tasks
      | none =>
          match ncol_max with
          | some mx =>
              match cmax with
              | none => Except.error "TypeError: NoneType comparison"
              | some cx =>
                  if mx < cx then
                    Except.error "DimensionError: more columns than required maximum"
                  else if read_header then
                    match tasks with
                    | [PyTask.row cols] => Except.ok (cols.map PyTask.scalar)
                    | _ => Except.ok tasks
                  else Except.ok tasks
          | none =>
              if read_header then
                match tasks with
                | [PyTask.row cols] => Except.ok (cols.map PyTask.scalar)
                | _ => Except.ok tasks
              else Except.ok tasks

/-! ### Scheduler submission (`ArgumentPasser.get_jobsubmit_cmd`,
`submit_tasks_to_scheduler`) -/

/-- `ARGSTR_EMAIL = '--email'`. -/
def ARGSTR_EMAIL : String := "--email"

/-- Python truthiness of an optional string (`None` and `''` are falsy). -/
def truthyOpt : Option String → Bool
  | none => false
  | some s => !(s == "")

/-- Character-list `startswith`/`endswith` (kernel-computable forms of the
Python string tests). -/
def strStartsWith (s pre : String) : Bool := pre.data.isPrefixOf s.data

def strEndsWith (s suf : String) : Bool := suf.data.isSuffixOf s.data

/-- `ArgumentPasser._argval2str` (lines 1358-1368): values not already
quoted are wrapped in double quotes. -/
def argval2str (item : String) : String :=
  if (strStartsWith item "\"" && strEndsWith item "\"") ||
     (strStartsWith item "\x27" && strEndsWith item "\x27") then item
  else "\"" ++ item ++ "\""

/-- One `'{argstr} {value}'` fragment of the child command line, as emitted
by `ArgumentPasser._update_cmd_base` (line 1387). -/
def cmdOptFragment (argstr value : String) : String :=
  argstr ++ " " ++ argval2str value

/-- The child command-line fragments produced by
`ArgumentPasser.get_cmd` for the child invocation: the fragments of all
other set options (`base`, in dict order), the per-job task-argument
fragment, and the `--email` fragment when the child's email variable is set.
(`ArgumentPasser._update_cmd_base` emits one fragment per non-`None`
variable; fragment order within the dict is irrelevant here and the email
fragment position is fixed last for definiteness.) -/
def childCmdFragments (base : List String) (taskArgstr taskVal : String)
    (email : Option String) : List String :=
  base ++ [cmdOptFragment taskArgstr taskVal] ++
    (match email with
     | some e => [cmdOptFragment ARGSTR_EMAIL e]
     | none => [])

/-- `time_hms` assembly of `get_jobsubmit_cmd` (lines 1415-1428). -/
def time_hms_of (time_hr time_min time_sec : Option Nat) : Option String :=
  let total := time_hr.getD 0 * 3600 + time_min.getD 0 * 60 + time_sec.getD 0
  if total = 0 then none
  else
    let s := total % 60
    let m := total / 60 % 60
    let h := total / 3600
    some (toString h ++ ":" ++ formatZeroPad 2 m ++ ":" ++ formatZeroPad 2 s)

/-- `cmd_envvars` for a list argument (lines 1430-1432):
`','.join(['p{}="{}"'.format(i, a) ...])`. -/
def cmd_envvars_of (envvars : List String) : String :=
  String.intercalate ","
    (envvars.enum.map (fun p => "p" ++ toString p.1 ++ "=\"" ++ p.2 ++ "\""))

/-- Python `str.strip(',')`. -/
def stripCommas (s : String) : String :=
  String.mk ((s.data.dropWhile (fun c => c = ',')).reverse.dropWhile
    (fun c => c = ',')).reverse

/-- The `qsub` command pieces joined by `' '.join` in the `SCHED_PBS` branch
of `get_jobsubmit_cmd` (lines 1436-1449), translated with the actual Python
parse of the element list: the source is missing a comma between the
`"-v {}..."` entry and the `"-m ae"` entry, so the fourth joined element is
`"-v " + cmd_envvars` when `cmd_envvars is not None` and otherwise
`('' "-m ae") if email else ''`, i.e. the `-m ae` mail flag can only appear
when no environment variables are passed. -/
def pbs_submit_parts (jobname : Option String) (time_hms : Option String)
    (memory_gb : Option Nat) (node : Option String) (email : Option String)
    (cmd_envvars : Option String) : List String :=
  ["qsub",
   (match jobname with | some j => "-N " ++ j | none => ""),
   (if time_hms.isSome ∧ memory_gb.isSome then
      "-l " ++ stripCommas (String.intercalate ","
        [(match node with | some n => "nodes=" ++ n | none => ""),
         (match time_hms with | some t => "walltime=" ++ t | none => ""),
         (match memory_gb with | some m => "mem=" ++ toString m ++ "gb" | none => "")])
    else ""),
   (match cmd_envvars with
    | some ev => "-v " ++ ev
    | none => if truthyOpt email then "-m ae" else "")]

/-- One job of a `submit_tasks_to_scheduler` batch: the job name, the child
command fragments embedded in the submission (via the environment-variable
flag), and the scheduler submission command pieces. -/
structure JobSubmission where
  job_name : String
  child_fragments : List String
  submit_parts : List String
deriving DecidableEq

/-- The rendered submission command (conclusion of `get_jobsubmit_cmd`:
`' '.join(cmd_list)` followed by the quoted jobscript path; the child
command string rides inside the `-v` environment-variable part). -/
def JobSubmission.render (j : JobSubmission) (jobscript : String) : String :=
  String.intercalate " " j.submit_parts ++ " \"" ++ jobscript ++ "\""

/-- The job-submission loop of `submit_tasks_to_scheduler` (lines
1884-1904), PBS scheduler: iterates over the child tasks with the mutable
`child_args` state threaded (`childEmail`), setting the child's `--email`
variable only when `job_num == num_jobs and last_job_email` (lines
1890-1891), and building each submission command with
`email=parent_args.get(ARGSTR_EMAIL)` and
`envvars=[jobscript, job_abbrev, cmd_single, python_version]`. -/
def submit_go (numJobs : Nat) (parentEmail : Option String)
    (childBase : List String) (taskArgstr : String) (jobnameWidth : Nat)
    (job_abbrev jobscript pyver : String) (walltime_hr memory_gb : Option Nat) :
    Nat → List String → Option String → List JobSubmission
  | _, [], _ => []
  | jobNum, t :: rest, childEmail =>
      let childEmail' :=
        if jobNum = numJobs ∧ truthyOpt parentEmail then parentEmail
        else childEmail
      let cfrags := childCmdFragments childBase taskArgstr t childEmail'
      let cmd_single := String.intercalate " " cfrags
      let jname := job_abbrev ++ formatZeroPad jobnameWidth jobNum
      let envv := cmd_envvars_of [jobscript, job_abbrev, cmd_single, pyver]
      let sparts := pbs_submit_parts (some jname)
        (time_hms_of walltime_hr none none) memory_gb none parentEmail (some envv)
      ⟨jname, cfrags, sparts⟩ ::
        submit_go numJobs parentEmail childBase taskArgstr jobnameWidth
          job_abbrev jobscript pyver walltime_hr memory_gb (jobNum+1) rest childEmail'

/-- `submit_tasks_to_scheduler(parent_args, parent_tasks, ...)` (lines
1861-1904) after the optional bundling step: `childTasks` are the per-job
task values (bundle file paths when `--tasks-per-job` is given), the child
`ArgumentPasser` starts with the scheduler argument group (including
`--email`) unset (line 1869), and the job-name format width is
`get_index_fmtstr(len(child_tasks))`. -/
def submit_tasks_to_scheduler (childTasks : List String)
    (parentEmail : Option String) (childBase : List String)
    (taskArgstr job_abbrev jobscript pyver : String)
    (walltime_hr memory_gb : Option Nat) : List JobSubmission :=
  submit_go childTasks.length parentEmail childBase taskArgstr
    (get_index_fmtstr_width childTasks.length 3) job_abbrev jobscript pyver
    walltime_hr memory_gb 1 childTasks none

/-- Whether the email-on-completion option is attached to a job's submission
command: the child command embedded in the submission carries the `--email`
option (which makes the spawned run send a completion email via
`send_script_completion_email`), or the scheduler-level mail flag `-m ae`
appears among the submission pieces. -/
def JobSubmission.hasEmailOption (j : JobSubmission) : Bool :=
  j.child_fragments.any (fun p => strStartsWith p ARGSTR_EMAIL) ||
    j.submit_parts.contains "-m ae"

/-! ### Statement-side helpers -/

/-- Event predicate: a generator yield for directory path `p`. -/
def isYldAt (p : List String) : WEvent → Bool
  | WEvent.yld q _ _ => q == p
  | _ => false

/-- Event predicate: a `CopyMethod.exec` call whose source file is `s`. -/
def isExecSrc (s : List String) : WEvent → Bool
  | WEvent.execCall q _ => q == s
  | _ => false

/-- Event predicate: an `os.makedirs` destination-directory creation. -/
def isMkdirsEv : WEvent → Bool
  | WEvent.mkdirs _ => true
  | _ => false

/-! ### Shared concrete examples -/

/-- A copy method with all options off (overwrite/dryrun/debug false,
verbose true): `copy.copy(COPY_METHOD_COPY_DEFAULT)` with
`set_options(False, False, True, False)`, as `perform_tasks` configures for
a plain non-dryrun run. -/
def sampleCopyWet : CopyMethod := COPY_METHOD_COPY_DEFAULT.set_options false false true false

/-- The same copy method with `dryrun=True` (and `silent=False`, the only
legal combination with dryrun). -/
def sampleCopyDry : CopyMethod := COPY_METHOD_COPY_DEFAULT.set_options false true true false

/-- A pattern-free traversal configuration (no include/exclude/sub rules,
no depth bounds), as built by `WalkObject.__init__` defaults. -/
def sampleCfgList : WalkCfg :=
  { mindepth := 0, maxdepth := none, dmatch_maxdepth := none,
    dmatch_nomaxdepth := true,
    fname_rematch := [], fname_reexcl := [], dname_rematch := [],
    dname_reexcl := [], fname_resub := [], dname_resub := [],
    copy_method := none, collapse_tree := false, mkdir_upon_file_copy := false }

/-- `sampleCfgList` with the non-dryrun copy method configured. -/
def sampleCfgWet : WalkCfg := { sampleCfgList with copy_method := some sampleCopyWet }

/-- `sampleCfgList` with the dryrun copy method configured. -/
def sampleCfgDry : WalkCfg := { sampleCfgList with copy_method := some sampleCopyDry }

/-- A small source tree:
`src/f0`, `src/a/f1`, `src/a/b/f2`. -/
def sampleTree : FSTree :=
  FSTree.node [("a", FSTree.node [("b", FSTree.node [] ["f2"])] ["f1"])] ["f0"]

/-- Reading every produced bundle file with `read_task_bundle` (default
options, matching delimiter) and concatenating the task lists in file
order; an error in any file propagates. -/
def read_all_bundles (bundles : List (String × List Char)) (delim : Char) :
    Except String (List PyTask) :=
  match bundles with
  | [] => Except.ok []
  | bf :: rest =>
      match read_task_bundle bf.2 (some delim) 0 true none none true false,
            read_all_bundles rest delim with
      | Except.ok ts, Except.ok more => Except.ok (ts ++ more)
      | Except.error e, _ => Except.error e
      | _, Except.error e => Except.error e

/-- The source path an event concerns: the yielded directory or the source
file of an exec call (destination `mkdirs` events carry no source path). -/
def evSrcPath : WEvent → Option (List String)
  | WEvent.yld q _ _ => some q
  | WEvent.execCall q _ => some q
  | WEvent.mkdirs _ => none

/-- Well-formedness of a source tree: every directory listing has distinct
subdirectory names and distinct file names (true of any real directory). -/
inductive FSTree.Wf : FSTree → Prop where
  | node : ∀ (dirs : List (String × FSTree)) (files : List String),
      (dirs.map Prod.fst).Nodup → files.Nodup →
      (∀ c ∈ dirs, FSTree.Wf c.2) → FSTree.Wf (FSTree.node dirs files)

/-- The effective `dmatch_depth` at the directory reached by relative path
`p` from an entry to `_walk` at `srcpath`/`depth`/`dmatch_depth` `d`: the
depth-1 entry adjustment of lines 742-757 followed by one per-segment
`dmatch_depth` transition (lines 837-841) for every path component. -/
def dmatchAt (cfg : WalkCfg) (srcpath : List String) (depth : Nat)
    (d : Int) (p : List String) : Int :=
  p.foldl (dmatchStep cfg) (dmatchEntry cfg srcpath depth d)

/-- The pattern-free configuration restricted to `mindepth=2, maxdepth=2`. -/
def sampleCfgD2 : WalkCfg :=
  { sampleCfgList with mindepth := 2, maxdepth := some 2 }

/-! ### Theorems -/

/-- C10: constructing a `WalkObject` with both `copy_silent` and
`copy_dryrun` set to true always raises `InvalidArgumentError`
(`__init__` lines 559-560; the validation checks that can fire earlier,
lines 550-553, also raise `InvalidArgumentError`), so no `WalkObject`
instance ever exists with both options enabled. -/
theorem walkobject_init_silent_dryrun_raises (a : WalkObjectArgs)
    (hs : a.copy_silent = true) (hd : a.copy_dryrun = true) :
    ∃ msg, WalkObject.init a = Except.error (WalkError.invalidArgument msg) := by
  unfold WalkObject.init
  split
  · exact ⟨_, rfl⟩
  · split
    · exact ⟨_, rfl⟩
    · rw [if_pos ⟨hs, hd⟩]
      exact ⟨_, rfl⟩

/-- Witness for C10 at a concrete argument record. -/
theorem walkobject_init_silent_dryrun_raises_witness :
    ∃ msg, WalkObject.init
      { mindepth := 0, maxdepth := none, dmatch_maxdepth := none,
        fmatch := none, fmatch_re := none, fexcl := none, fexcl_re := none,
        dmatch := none, dmatch_re := none, dexcl := none, dexcl_re := none,
        fsub := none, dsub := none,
        copy_method := some COPY_METHOD_COPY_DEFAULT, copy_shcmd_fmtstr := none,
        copy_overwrite := false, transplant_tree := false, collapse_tree := false,
        copy_dryrun := true, copy_silent := true, copy_debug := false,
        mkdir_upon_file_copy := false, list_function_valid := true } =
      Except.error (WalkError.invalidArgument msg) :=
  walkobject_init_silent_dryrun_raises _ rfl rfl

/-- C3 (failing run): re-running `WalkObject.walk` with a copy method
configured and the destination directory already existing (as it does after
a completed first run) raises `FileExistsError`: the guard at `walk` lines
730-731 calls `os.makedirs(self.dstdir)` exactly when
`os.path.isdir(self.dstdir)` is already true.  The claimed error-free,
mutation-free second run does not happen. -/
theorem second_sync_walk_raises_file_exists :
    WalkObject.walk sampleCfgWet 10 ["src"] (some ["dst"]) false true
      (fun p => p == ["dst"] || p == ["dst", "a"] || p == ["dst", "a", "b"])
      sampleTree
      = Except.error (WalkError.fileExists ["dst"]) := by rfl

/-- C2 (failing run): a dryrun traversal with a destination and copy method
configured still creates destination directories: `_walk` lines 763-769
call `os.makedirs(dstdir)` eagerly without consulting `dryrun` (unlike the
lazy creation at line 819, which does), so the dryrun run of `src/f0`,
`src/a/f1`, `src/a/b/f2` to a fresh `dst` emits `os.makedirs` calls for
`dst`, `dst/a` and `dst/a/b`.  (`CopyMethod.exec` itself performs no
mutation under dryrun — `exec_dryrun_no_mutation` below — so the violation
is the walker's.) -/
theorem dryrun_walk_creates_destination_directories :
    ((WalkObject.walkF sampleCfgDry (fun _ => false) 10 ["src"] (some ["dst"]) 1
        (WalkObject.dmatchInit sampleCfgDry) [] sampleTree).1.filter isMkdirsEv)
      = [WEvent.mkdirs ["dst"], WEvent.mkdirs ["dst", "a"],
         WEvent.mkdirs ["dst", "a", "b"]] := by rfl

/-- `CopyMethod.exec` performs no filesystem mutation when `dryrun` is set:
every mutating call sits under `if not self.dryrun and proceed_with_copy`
(line 442). -/
theorem exec_dryrun_no_mutation (cm : CopyMethod) (src dst : String)
    (de fe : Bool) (h : cm.dryrun = true) :
    (cm.exec src dst de fe).events = [] := by
  unfold CopyMethod.exec
  cases de <;> cases fe <;> cases hov : cm.copy_overwrite <;>
    cases hv1 : cm.action_verb == "HARDLINKING" <;>
    cases hv2 : cm.action_verb == "LINKING" <;>
    simp [h, hov, hv1, hv2]

/-- C4 (counterexample): for the symlink strategy
(`COPY_METHOD_SYMLINK`, action verb `SYMLINKING`) with an existing,
byte-identical destination and overwrite disabled, the log does not report
the identity: the content comparison at line 417 runs only for the verbs
`HARDLINKING` and `LINKING`, and `SYMLINKING` is neither, so `exec` logs
`"SKIPPING; destination file already exists"` where the hardlink strategy
logs `"SKIPPING; correct link already exists"` on the same oracle. -/
theorem symlink_existing_identical_dst_not_compared :
    (COPY_METHOD_SYMLINK.exec "src/x" "dst/x" true true).overwrite_action
      = "SKIPPING; destination file already exists" ∧
    (COPY_METHOD_HARDLINK.exec "src/x" "dst/x" true true).overwrite_action
      = "SKIPPING; correct link already exists" ∧
    "SKIPPING; destination file already exists" ≠
      "SKIPPING; correct link already exists" := by
  refine ⟨by rfl, by rfl, by decide⟩

/-- C4 (amended): for every `CopyMethod.exec(src, dst)` with `dst` existing:
if overwrite is false the transfer is skipped (no mutation) and the log
reports byte-identity only for strategies whose action verb is
`HARDLINKING` or `LINKING` (the hardlink strategies; the symlink strategy's
verb `SYMLINKING` always yields the plain already-exists message); if
overwrite is true and dryrun is false, `dst` is removed first and then the
transfer primitive runs. -/
theorem exec_existing_dst_behavior (cm : CopyMethod) (src dst : String)
    (cmpEq : Bool) :
    (cm.exec src dst true cmpEq).proceeded = cm.copy_overwrite ∧
    (cm.exec src dst true cmpEq).overwrite_action =
      (if cm.copy_overwrite then "OVERWRITING"
       else if (cm.action_verb == "HARDLINKING" || cm.action_verb == "LINKING")
               && cmpEq then
         "SKIPPING; correct link already exists"
       else "SKIPPING; destination file already exists") ∧
    (cm.exec src dst true cmpEq).events =
      (if cm.copy_overwrite && !cm.dryrun then
        [ExecEvent.removeFile dst, cm.transfer_event src dst]
       else []) := by
  unfold CopyMethod.exec
  cases hov : cm.copy_overwrite <;> cases hdr : cm.dryrun <;>
    cases hcmp : cmpEq <;>
    cases hv1 : cm.action_verb == "HARDLINKING" <;>
    cases hv2 : cm.action_verb == "LINKING" <;>
    simp [hov, hdr, hcmp, hv1, hv2]

/-- C7 (counterexample): `write_task_bundles` on the empty task list writes
no bundle files at all and returns the empty list — the bundle loop
iterates over `range(0, 0, B)`, which is empty (the empty-chunk branch at
lines 1554-1556 is unreachable), so no single empty bundle file exists. -/
theorem write_task_bundles_empty_returns_nil :
    write_task_bundles [] 4 "bundles" "ft" "20260101000000" ',' = [] := by rfl

/-- C7 (amended): for the empty task list (and any positive bundle size,
the only sizes `range` accepts), `write_task_bundles` creates no bundle
file and returns the empty list. -/
theorem write_task_bundles_empty_no_files (B : Nat) (dstdir pre ts : String)
    (delim : Char) (hB : 1 ≤ B) :
    write_task_bundles [] B dstdir pre ts delim = [] := by
  unfold write_task_bundles
  have hB0 : ¬ B = 0 := by omega
  simp only [List.length_nil, Nat.zero_add, if_neg hB0]
  have : (B - 1) / B = 0 := Nat.div_eq_of_lt (by omega)
  simp [this]

/-- Witness for C7's amended claim at `B = 4`. -/
theorem write_task_bundles_empty_no_files_witness :
    write_task_bundles [] 4 "bundles" "ft" "ts" ',' = [] :=
  write_task_bundles_empty_no_files 4 "bundles" "ft" "ts" ',' (by decide)

/-- Any nonempty list has `isEmpty = false`. -/
theorem isEmpty_false_of_length_ne_zero {α : Type} (l : List α)
    (h : l.length ≠ 0) : l.isEmpty = false := by
  cases l with
  | nil => simp at h
  | cons a as => rfl

/-- For `B ≥ 1`, every chunk start index `j < ceil(N/B)` lies inside the
task list. -/
theorem bundle_chunk_start_lt (N B j : Nat) (hB : 1 ≤ B)
    (hj : j < (N + B - 1) / B) : j * B < N := by
  have h3 : (j + 1) * B ≤ N + B - 1 :=
    (Nat.le_div_iff_mul_le (by omega)).mp hj
  have h4 : j * B + 1 * B ≤ N + B - 1 := by
    calc j * B + 1 * B = (j + 1) * B := by ring
    _ ≤ _ := h3
  set a := j * B
  omega

/-- C6: for a non-empty task list of length `N` and bundle size `B ≥ 1`,
`write_task_bundles` produces `ceil(N/B) = (N+B-1)/B` bundle files; every
chunk except possibly the last has exactly `B` tasks and the last has the
remaining `N - (total-1)*B`; and bundle `j` (0-based) is named
`{dstdir}/{pre}_{timestamp}_{index}.txt` with the 1-based index zero-padded
to width `max(3, digits of the total bundle count)`
(`get_index_fmtstr` lines 1532-1533) and holds exactly the tasks of chunk
`j`, one delimiter-joined line per task. -/
theorem write_task_bundles_chunking
    (tasks : List (List (List Char))) (B : Nat) (dstdir pre ts : String)
    (delim : Char) (hB : 1 ≤ B) (hN : 1 ≤ tasks.length) :
    (write_task_bundles tasks B dstdir pre ts delim).length
        = (tasks.length + B - 1) / B ∧
    (∀ j, j + 1 < (tasks.length + B - 1) / B →
        ((tasks.drop (j * B)).take B).length = B) ∧
    ((tasks.drop ((((tasks.length + B - 1) / B) - 1) * B)).take B).length
        = tasks.length - (((tasks.length + B - 1) / B) - 1) * B ∧
    (∀ (j : Nat) (h : j < (write_task_bundles tasks B dstdir pre ts delim).length),
        (write_task_bundles tasks B dstdir pre ts delim).get ⟨j, h⟩ =
          (dstdir ++ "/" ++ pre ++ "_" ++ ts ++ "_" ++
             formatZeroPad (get_index_fmtstr_width ((tasks.length + B - 1) / B) 3)
               (j + 1) ++ ".txt",
           (((tasks.drop (j * B)).take B).map
               (fun task => joinC delim task ++ ['\n'])).flatten)) := by
  have hB0 : ¬ B = 0 := by omega
  refine ⟨?_, ?_, ?_, ?_⟩
  · simp [write_task_bundles, hB0]
  · intro j hj
    rw [List.length_take, List.length_drop]
    have h3 : (j + 2) * B ≤ tasks.length + B - 1 :=
      (Nat.le_div_iff_mul_le (by omega)).mp hj
    have h4 : j * B + 2 * B ≤ tasks.length + B - 1 := by
      calc j * B + 2 * B = (j + 2) * B := by ring
      _ ≤ _ := h3
    set a := j * B
    omega
  · rw [List.length_take, List.length_drop]
    have hq1 : tasks.length ≤ ((tasks.length + B - 1) / B) * B := by
      have h := Nat.div_add_mod (tasks.length + B - 1) B
      have hr : (tasks.length + B - 1) % B < B := Nat.mod_lt _ (by omega)
      rw [Nat.mul_comm]
      set m := B * ((tasks.length + B - 1) / B)
      omega
    have hqpos : 1 ≤ (tasks.length + B - 1) / B :=
      (Nat.le_div_iff_mul_le (by omega)).mpr (by omega)
    have hsub : (((tasks.length + B - 1) / B) - 1) * B
        = ((tasks.length + B - 1) / B) * B - B := by
      rw [Nat.sub_mul, Nat.one_mul]
    have hBm : B ≤ ((tasks.length + B - 1) / B) * B := by
      calc B = 1 * B := (Nat.one_mul B).symm
      _ ≤ _ := Nat.mul_le_mul_right B hqpos
    set m := ((tasks.length + B - 1) / B) * B
    set c := (((tasks.length + B - 1) / B) - 1) * B
    omega
  · intro j h
    have hjq : j < (tasks.length + B - 1) / B := by
      have hlen : (write_task_bundles tasks B dstdir pre ts delim).length
          = (tasks.length + B - 1) / B := by simp [write_task_bundles, hB0]
      omega
    have hlt : j * B < tasks.length := bundle_chunk_start_lt _ _ _ hB hjq
    have hne : ((tasks.drop (j * B)).take B).isEmpty = false := by
      refine isEmpty_false_of_length_ne_zero _ ?_
      rw [List.length_take, List.length_drop]
      set a := j * B
      omega
    rw [List.get_eq_getElem]
    simp only [write_task_bundles, if_neg hB0, List.getElem_map,
      List.getElem_range, hne, Bool.false_eq_true, if_false]

/-- Ten sample (source, destination) task tuples. -/
def sampleTasks10 : List (List (List Char)) :=
  [["s0".data, "d0".data], ["s1".data, "d1".data], ["s2".data, "d2".data],
   ["s3".data, "d3".data], ["s4".data, "d4".data], ["s5".data, "d5".data],
   ["s6".data, "d6".data], ["s7".data, "d7".data], ["s8".data, "d8".data],
   ["s9".data, "d9".data]]

/-- Witness for C6: bundling 10 tasks with bundle size 4 gives
`ceil(10/4) = 3` bundle files holding 4, 4 and 2 tasks, with zero-padded
names `..._001.txt`, `..._002.txt`, `..._003.txt`. -/
theorem write_task_bundles_chunking_witness :
    ((1 : Nat) ≤ 4 ∧ 1 ≤ sampleTasks10.length) ∧
    (write_task_bundles sampleTasks10 4 "bundles" "ft" "ts" ',').length
        = (10 + 4 - 1) / 4 ∧
    ((sampleTasks10.drop 0).take 4).length = 4 ∧
    ((sampleTasks10.drop 4).take 4).length = 4 ∧
    ((sampleTasks10.drop 8).take 4).length = 2 ∧
    ((write_task_bundles sampleTasks10 4 "bundles" "ft" "ts" ',').map Prod.fst)
      = ["bundles/ft_ts_001.txt", "bundles/ft_ts_002.txt", "bundles/ft_ts_003.txt"] :=
  ⟨⟨by decide, by decide⟩,
   (write_task_bundles_chunking sampleTasks10 4 "bundles" "ft" "ts" ','
      (by decide) (by decide)).1,
   by decide, by decide, by decide, by rfl⟩

/-- `splitOnC` never returns an empty field list. -/
theorem splitOnC_ne_nil (c : Char) (s : List Char) : splitOnC c s ≠ [] := by
  induction s with
  | nil => simp [splitOnC]
  | cons x xs ih =>
      rw [splitOnC]
      rcases hs : splitOnC c xs with _ | ⟨h, t⟩
      · simp
      · by_cases hx : x = c <;> simp [hx]

/-- A separator-free string splits into the single field it is. -/
theorem splitOnC_not_mem (c : Char) (l : List Char) (h : c ∉ l) :
    splitOnC c l = [l] := by
  induction l with
  | nil => rfl
  | cons x xs ih =>
      have hxs : c ∉ xs := fun hm => h (List.mem_cons_of_mem _ hm)
      have hx : ¬ x = c := fun he => h (he ▸ List.mem_cons_self _ _)
      rw [splitOnC, ih hxs]
      simp [hx]

/-- Splitting after a leading separator-free field peels that field off. -/
theorem splitOnC_append (c : Char) (l s : List Char) (h : c ∉ l) :
    splitOnC c (l ++ c :: s) = l :: splitOnC c s := by
  induction l with
  | nil =>
      rw [List.nil_append, splitOnC]
      rcases hs : splitOnC c s with _ | ⟨h1, t1⟩
      · exact absurd hs (splitOnC_ne_nil c s)
      · simp
  | cons x xs ih =>
      have hxs : c ∉ xs := fun hm => h (List.mem_cons_of_mem _ hm)
      have hx : ¬ x = c := fun he => h (he ▸ List.mem_cons_self _ _)
      rw [List.cons_append, splitOnC, ih hxs]
      simp [hx]

/-- Splitting the concatenation of newline-terminated, newline-free lines
recovers the lines (plus the empty trailing field). -/
theorem splitOnC_flatten_lines (lines : List (List Char))
    (h : ∀ l ∈ lines, '\n' ∉ l) :
    splitOnC '\n' ((lines.map (fun l => l ++ ['\n'])).flatten)
      = lines ++ [[]] := by
  induction lines with
  | nil => rfl
  | cons l ls ih =>
      have h1 : (l ++ ['\n']) ++ ((ls.map (fun l => l ++ ['\n'])).flatten)
          = l ++ '\n' :: ((ls.map (fun l => l ++ ['\n'])).flatten) := by simp
      simp only [List.map_cons, List.flatten_cons]
      rw [h1, splitOnC_append _ _ _ (h l (List.mem_cons_self _ _)),
        ih (fun x hx => h x (List.mem_cons_of_mem _ hx))]
      rfl

/-- `splitlines` of the concatenation of newline-terminated, newline-free
lines recovers exactly the lines. -/
theorem splitlinesC_flatten (lines : List (List Char))
    (h : ∀ l ∈ lines, '\n' ∉ l) :
    splitlinesC ((lines.map (fun l => l ++ ['\n'])).flatten) = lines := by
  cases lines with
  | nil => rfl
  | cons l ls =>
      unfold splitlinesC
      rw [splitOnC_flatten_lines _ h]
      have hne : (((l :: ls).map (fun l => l ++ ['\n'])).flatten).isEmpty = false := by
        simp [List.isEmpty_iff]
      rw [hne]
      have hlast : ((l :: ls) ++ [([] : List Char)]).getLast? = some [] := by
        rw [List.getLast?_concat]
      simp only [Bool.false_eq_true, if_false, hlast, if_pos rfl]
      exact List.dropLast_concat

/-- If `dropWhile` keeps a nonempty list intact, its head fails the
predicate. -/
theorem head_false_of_dropWhile_eq_self (p : Char → Bool) (x : Char)
    (xs : List Char) (h : (x :: xs).dropWhile p = x :: xs) : p x = false := by
  by_contra hx
  have hx' : p x = true := by
    cases hpx : p x with
    | false => exact absurd hpx hx
    | true => rfl
  have h1 : (x :: xs).dropWhile p = xs.dropWhile p := by
    rw [List.dropWhile_cons, if_pos hx']
  have h2 : (xs.dropWhile p).length ≤ xs.length := (xs.dropWhile_suffix p).length_le
  rw [h1] at h
  have := congrArg List.length h
  simp at this
  omega

/-- A list kept intact by a front `dropWhile` stays intact with anything
appended, provided it is nonempty or the appended head fails the
predicate. -/
theorem dropWhile_append_eq_self (p : Char → Bool) (l m : List Char)
    (hl : l.dropWhile p = l) (hm : ∀ x ∈ m.head?, p x = false) :
    (l ++ m).dropWhile p = l ++ m := by
  cases l with
  | nil =>
      cases m with
      | nil => rfl
      | cons y ys =>
          have hy : p y = false := hm y rfl
          simp [List.dropWhile_cons, hy]
  | cons x xs =>
      have hx : p x = false := head_false_of_dropWhile_eq_self p x xs hl
      simp [List.dropWhile_cons, hx]

/-- `strip`-invariance forces the front `dropWhile` to be the identity. -/
theorem dropWhile_eq_self_of_stripC_eq (l : List Char) (h : stripC l = l) :
    l.dropWhile pyIsSpace = l := by
  have h1 : (stripC l).length ≤ (l.dropWhile pyIsSpace).length := by
    unfold stripC
    have := ((l.dropWhile pyIsSpace).reverse.dropWhile_suffix pyIsSpace).length_le
    simpa using this
  have h2 : (l.dropWhile pyIsSpace).length ≤ l.length :=
    (l.dropWhile_suffix pyIsSpace).length_le
  have h3 : (stripC l).length = l.length := by rw [h]
  exact (l.dropWhile_suffix pyIsSpace).eq_of_length (by omega)

/-- `strip`-invariance also forces the back `dropWhile` (on the reversal) to
be the identity. -/
theorem rev_dropWhile_eq_self_of_stripC_eq (l : List Char) (h : stripC l = l) :
    l.reverse.dropWhile pyIsSpace = l.reverse := by
  have hfront := dropWhile_eq_self_of_stripC_eq l h
  have hback : stripC l = (l.reverse.dropWhile pyIsSpace).reverse := by
    unfold stripC
    rw [hfront]
  rw [h] at hback
  have := congrArg List.reverse hback
  simpa using this.symm

/-- Stripping a delimiter-joined pair of strip-invariant fields is the
identity (the delimiter is not whitespace). -/
theorem stripC_join_pair (a b : List Char) (d : Char)
    (hd : pyIsSpace d = false) (ha : stripC a = a) (hb : stripC b = b) :
    stripC (a ++ d :: b) = a ++ d :: b := by
  have hfront : (a ++ d :: b).dropWhile pyIsSpace = a ++ d :: b := by
    refine dropWhile_append_eq_self _ _ _ (dropWhile_eq_self_of_stripC_eq a ha) ?_
    intro x hx
    simp at hx
    rw [← hx]
    exact hd
  have hrev : (a ++ d :: b).reverse = b.reverse ++ d :: a.reverse := by
    simp
  have hbackdw : ((a ++ d :: b).reverse).dropWhile pyIsSpace
      = (a ++ d :: b).reverse := by
    rw [hrev]
    refine dropWhile_append_eq_self _ _ _
      (rev_dropWhile_eq_self_of_stripC_eq b hb) ?_
    intro x hx
    simp at hx
    rw [← hx]
    exact hd
  unfold stripC
  rw [hfront, hbackdw]
  simp

/-- `delim.join` of a pair. -/
theorem joinC_pair (a b : List Char) (d : Char) : joinC d [a, b] = a ++ d :: b := rfl

theorem read_task_bundle_of_chunk (chunk : List (List (List Char))) (delim : Char)
    (hne : chunk ≠ [])
    (hd1 : pyIsSpace delim = false) (hd2 : ¬delim = '\n')
    (hcols : ∀ t ∈ chunk, t.length = 2)
    (hclean : ∀ t ∈ chunk, ∀ x ∈ t, delim ∉ x ∧ '\n' ∉ x ∧ stripC x = x) :
    read_task_bundle ((chunk.map (fun task => joinC delim task ++ ['\n'])).flatten)
        (some delim) 0 true none none true false
      = Except.ok (chunk.map PyTask.row) := by
  have hpair : ∀ t ∈ chunk, ∃ a b, t = [a, b] := by
    intro t ht
    match t, hcols t ht with
    | [a, b], _ => exact ⟨a, b, rfl⟩
  have hnonl : ∀ l ∈ chunk.map (fun t => joinC delim t), '\n' ∉ l := by
    intro l hl
    rcases List.mem_map.mp hl with ⟨t, ht, rfl⟩
    rcases hpair t ht with ⟨a, b, rfl⟩
    rw [joinC_pair]
    intro hmem
    rcases List.mem_append.mp hmem with h | h
    · exact ((hclean _ ht a (by simp)).2.1) h
    · rcases List.mem_cons.mp h with h | h
      · exact hd2 h.symm
      · exact ((hclean _ ht b (by simp)).2.1) h
  have hcontent : ((chunk.map (fun task => joinC delim task ++ ['\n'])).flatten)
      = (((chunk.map (fun t => joinC delim t)).map (fun l => l ++ ['\n'])).flatten) := by
    rw [List.map_map]
    rfl
  have hsplit : splitlinesC ((chunk.map (fun task => joinC delim task ++ ['\n'])).flatten)
      = chunk.map (fun t => joinC delim t) := by
    rw [hcontent]
    exact splitlinesC_flatten _ hnonl
  have hstripline : ∀ t ∈ chunk, stripC (joinC delim t) = joinC delim t := by
    intro t ht
    rcases hpair t ht with ⟨a, b, rfl⟩
    rw [joinC_pair]
    exact stripC_join_pair a b delim hd1 ((hclean _ ht a (by simp)).2.2)
      ((hclean _ ht b (by simp)).2.2)
  have hfilter : (chunk.map (fun t => joinC delim t)).filter
      (fun l => !(stripC l).isEmpty) = chunk.map (fun t => joinC delim t) := by
    rw [List.filter_eq_self]
    intro l hl
    rcases List.mem_map.mp hl with ⟨t, ht, rfl⟩
    rw [hstripline t ht]
    rcases hpair t ht with ⟨a, b, rfl⟩
    rw [joinC_pair]
    cases a <;> rfl
  have hrows : (chunk.map (fun t => joinC delim t)).map
      (fun task => (splitOnC delim task).map stripC) = chunk := by
    rw [List.map_map]
    have : ∀ t ∈ chunk, ((splitOnC delim (joinC delim t)).map stripC) = t := by
      intro t ht
      rcases hpair t ht with ⟨a, b, rfl⟩
      rw [joinC_pair, splitOnC_append _ _ _ (hclean _ ht a (by simp)).1,
        splitOnC_not_mem _ _ (hclean _ ht b (by simp)).1]
      simp [List.map_cons]
      exact ⟨(hclean _ ht a (by simp)).2.2, (hclean _ ht b (by simp)).2.2⟩
    calc chunk.map ((fun task => (splitOnC delim task).map stripC) ∘ (fun t => joinC delim t))
        = chunk.map id := List.map_congr_left (by intro t ht; exact this t ht)
      _ = chunk := List.map_id _
  have hnonempty : (chunk.map (fun t => joinC delim t)).isEmpty = false := by
    cases chunk with
    | nil => exact absurd rfl hne
    | cons t ts => rfl
  have hall : (chunk.all fun r => decide (r.length = (chunk.headD []).length)) = true := by
    rw [List.all_eq_true]
    intro t ht
    rw [decide_eq_true_eq]
    cases chunk with
    | nil => exact absurd rfl hne
    | cons c cs =>
        have hc : (c :: cs).headD [] = c := rfl
        rw [hc, hcols t ht, hcols c (List.mem_cons_self _ _)]
  have htasks : (chunk.map fun r => match r with
      | [a] => PyTask.scalar a
      | _ => PyTask.row r) = chunk.map PyTask.row := by
    apply List.map_congr_left
    intro t ht
    rcases hpair t ht with ⟨a, b, rfl⟩
    rfl
  unfold read_task_bundle
  simp only [hsplit, hfilter, hnonempty, Bool.false_eq_true, if_false,
    Nat.lt_irrefl, false_and, hrows, hall, htasks]
  simp

/-- The index-slicing loop of `write_task_bundles` partitions the task list:
concatenating the chunks `task_list[j*B : j*B+B]` for
`j < ceil(len/B)` in order reproduces `task_list`. -/
theorem flatten_range_chunks {α : Type} (B : Nat) (hB : 1 ≤ B) (l : List α) :
    ((List.range ((l.length + B - 1) / B)).map
        (fun j => (l.drop (j * B)).take B)).flatten = l := by
  generalize hn : l.length = N
  induction N using Nat.strong_induction_on generalizing l with
  | _ N ih =>
    cases l with
    | nil =>
        have h0 : (0 + B - 1) / B = 0 := Nat.div_eq_of_lt (by omega)
        simp at hn
        subst hn
        simp [h0]
    | cons x xs =>
        have hN1 : 1 ≤ N := by
          rw [← hn]; simp
        have hq : (N + B - 1) / B = (N - 1) / B + 1 := by
          have h1 : N + B - 1 = (N - 1) + B := by omega
          rw [h1, Nat.add_div_right _ (by omega)]
        rw [hq, List.range_succ_eq_map]
        simp only [List.map_cons, List.map_map, List.flatten_cons,
          Nat.zero_mul, List.drop_zero]
        have hlen' : ((x :: xs).drop B).length = N - B := by
          rw [List.length_drop, hn]
        have hk : (N - 1) / B = ((N - B) + B - 1) / B := by
          rcases le_or_lt N B with h | h
          · rw [Nat.sub_eq_zero_of_le h, Nat.div_eq_of_lt (by omega),
              Nat.div_eq_of_lt (by omega)]
          · have h1 : (N - B) + B - 1 = (N - B - 1) + B := by omega
            have h2 : N - 1 = (N - B - 1) + B := by omega
            rw [h1, h2, Nat.add_div_right _ (by omega)]
        have ihd := ih (N - B) (by omega) ((x :: xs).drop B) hlen'
        have hcong : (List.range ((N - 1) / B)).map
              ((fun j => ((x :: xs).drop (j * B)).take B) ∘ Nat.succ)
            = (List.range ((N - 1) / B)).map
              (fun j => (((x :: xs).drop B).drop (j * B)).take B) := by
          apply List.map_congr_left
          intro j hj
          have hsm : Nat.succ j * B = B + j * B := by
            rw [Nat.succ_mul, Nat.add_comm]
          simp only [Function.comp]
          rw [hsm, ← List.drop_drop]
        rw [hcong, hk, ihd, List.take_append_drop]

/-- `read_all_bundles` on files that each read successfully concatenates
the per-file task lists. -/
theorem read_all_bundles_of_reads (delim : Char)
    (bundles : List (String × List Char)) (parts : List (List PyTask))
    (h : bundles.map
        (fun bf => read_task_bundle bf.2 (some delim) 0 true none none true false)
      = parts.map Except.ok) :
    read_all_bundles bundles delim = Except.ok parts.flatten := by
  induction bundles generalizing parts with
  | nil =>
      cases parts with
      | nil => rfl
      | cons p ps => simp at h
  | cons bf rest ih =>
      cases parts with
      | nil => simp at h
      | cons p ps =>
          simp only [List.map_cons, List.cons.injEq] at h
          rw [read_all_bundles, h.1, ih ps h.2]
          simp

/-- C5: writing N task tuples with `write_task_bundles` (bundle size
`B ≥ 1`) and re-reading every produced bundle file with `read_task_bundle`
(default options, same delimiter), concatenating in file order, reproduces
the original task tuples in their original order.  The tasks are
(source, destination) pairs whose fields are representable in the format:
free of the delimiter and of newlines, and `strip`-invariant (no leading or
trailing whitespace), with a non-whitespace delimiter. -/
theorem write_read_bundles_roundtrip
    (tasks : List (List (List Char))) (B : Nat) (dstdir pre ts : String)
    (delim : Char) (hB : 1 ≤ B)
    (hd1 : pyIsSpace delim = false) (hd2 : ¬delim = '\n')
    (hcols : ∀ t ∈ tasks, t.length = 2)
    (hclean : ∀ t ∈ tasks, ∀ x ∈ t, delim ∉ x ∧ '\n' ∉ x ∧ stripC x = x) :
    read_all_bundles (write_task_bundles tasks B dstdir pre ts delim) delim
      = Except.ok (tasks.map PyTask.row) := by
  have hB0 : ¬ B = 0 := by omega
  have hwrite : write_task_bundles tasks B dstdir pre ts delim
      = (List.range ((tasks.length + B - 1) / B)).map (fun j =>
          (dstdir ++ "/" ++ pre ++ "_" ++ ts ++ "_" ++
             formatZeroPad
               (get_index_fmtstr_width ((tasks.length + B - 1) / B) 3) (j + 1)
             ++ ".txt",
           (((tasks.drop (j * B)).take B).map
               (fun task => joinC delim task ++ ['\n'])).flatten)) := by
    unfold write_task_bundles
    rw [if_neg hB0]
    apply List.map_congr_left
    intro j hj
    have hjq : j < (tasks.length + B - 1) / B := List.mem_range.mp hj
    have hlt : j * B < tasks.length := bundle_chunk_start_lt _ _ _ hB hjq
    have hne2 : ((tasks.drop (j * B)).take B).isEmpty = false := by
      refine isEmpty_false_of_length_ne_zero _ ?_
      rw [List.length_take, List.length_drop]
      set a := j * B
      omega
    simp [hne2]
  have hreads : (write_task_bundles tasks B dstdir pre ts delim).map
        (fun bf => read_task_bundle bf.2 (some delim) 0 true none none true false)
      = ((List.range ((tasks.length + B - 1) / B)).map
          (fun j => ((tasks.drop (j * B)).take B).map PyTask.row)).map
          Except.ok := by
    rw [hwrite, List.map_map, List.map_map]
    apply List.map_congr_left
    intro j hj
    have hjq : j < (tasks.length + B - 1) / B := List.mem_range.mp hj
    have hlt : j * B < tasks.length := bundle_chunk_start_lt _ _ _ hB hjq
    have hsub : ∀ t ∈ (tasks.drop (j * B)).take B, t ∈ tasks := by
      intro t ht
      exact List.drop_subset _ _ (List.take_subset _ _ ht)
    have hne2 : (tasks.drop (j * B)).take B ≠ [] := by
      intro he
      have := congrArg List.length he
      rw [List.length_take, List.length_drop] at this
      simp at this
      omega
    exact read_task_bundle_of_chunk _ delim hne2 hd1 hd2
      (fun t ht => hcols t (hsub t ht))
      (fun t ht => hclean t (hsub t ht))
  rw [read_all_bundles_of_reads delim _ _ hreads]
  have hcomp : (List.range ((tasks.length + B - 1) / B)).map
        (fun j => ((tasks.drop (j * B)).take B).map PyTask.row)
      = ((List.range ((tasks.length + B - 1) / B)).map
          (fun j => (tasks.drop (j * B)).take B)).map (List.map PyTask.row) := by
    rw [List.map_map]
    rfl
  rw [hcomp, ← List.map_flatten, flatten_range_chunks B hB tasks]

/-- Witness for C5 at three concrete tasks and bundle size 2. -/
theorem write_read_bundles_roundtrip_witness :
    read_all_bundles
        (write_task_bundles
          [["src/a".data, "dst/a".data], ["src/b".data, "dst/b".data],
           ["src/c".data, "dst/c".data]] 2 "bundles" "ft" "ts" ',') ','
      = Except.ok
          ([["src/a".data, "dst/a".data], ["src/b".data, "dst/b".data],
            ["src/c".data, "dst/c".data]].map PyTask.row) :=
  write_read_bundles_roundtrip _ 2 "bundles" "ft" "ts" ',' (by decide)
    (by decide) (by decide) (by decide) (by decide)

/-- A string starts with itself followed by anything. -/
theorem strStartsWith_append_self (s r : String) :
    strStartsWith (s ++ r) s = true := by
  unfold strStartsWith
  rw [String.data_append]
  simp [List.isPrefixOf_iff_prefix]

/-- A failed prefix test on a sufficiently long list stays failed under any
extension. -/
theorem isPrefixOf_append_false (p l r : List Char)
    (h : p.isPrefixOf l = false) (hlen : p.length ≤ l.length) :
    p.isPrefixOf (l ++ r) = false := by
  induction p generalizing l with
  | nil => simp [List.isPrefixOf] at h
  | cons a as ih =>
      cases l with
      | nil => simp at hlen
      | cons b bs =>
          simp only [List.cons_append, List.isPrefixOf] at h ⊢
          cases hab : a == b with
          | false => simp [hab]
          | true =>
              simp only [hab, Bool.true_and] at h ⊢
              exact ih bs h (by simpa using hlen)

/-- An option fragment whose argument string differs from `--email` within
its own (space-terminated) text never starts with `--email`. -/
theorem cmdOptFragment_not_email (argstr : String)
    (h : ARGSTR_EMAIL.data.isPrefixOf (argstr ++ " ").data = false)
    (hlen : ARGSTR_EMAIL.data.length ≤ (argstr ++ " ").data.length) :
    ∀ v, strStartsWith (cmdOptFragment argstr v) ARGSTR_EMAIL = false := by
  intro v
  unfold strStartsWith cmdOptFragment
  rw [String.data_append]
  exact isPrefixOf_append_false _ _ _ h hlen

/-- The `--email` child fragment does start with `--email`. -/
theorem cmdOptFragment_email_starts (v : String) :
    strStartsWith (cmdOptFragment ARGSTR_EMAIL v) ARGSTR_EMAIL = true := by
  unfold cmdOptFragment
  rw [String.append_assoc]
  exact strStartsWith_append_self _ _

/-- With environment variables passed (as `submit_tasks_to_scheduler` always
does), no PBS submission command carries the `-m ae` mail flag: the missing
comma in the source makes the flag the `else`-alternative of the `-v`
element. -/
theorem pbs_parts_no_mae (jn : String) (th : Option String) (mg : Option Nat)
    (nd em : Option String) (ev : String) :
    (pbs_submit_parts (some jn) th mg nd em (some ev)).contains "-m ae"
      = false := by
  have h2 : ¬ ("-N " ++ jn) = "-m ae" := by
    intro he
    have h := congrArg String.data he
    rw [String.data_append] at h
    have e1 : ("-N ").data = ['-', 'N', ' '] := rfl
    have e2 : ("-m ae").data = ['-', 'm', ' ', 'a', 'e'] := rfl
    rw [e1, e2] at h
    simp at h
  have h3 : ¬ ("-l " ++ stripCommas (String.intercalate ","
      [(match nd with | some n => "nodes=" ++ n | none => ""),
       (match th with | some t => "walltime=" ++ t | none => ""),
       (match mg with | some m => "mem=" ++ toString m ++ "gb" | none => "")]))
        = "-m ae" := by
    intro he
    have h := congrArg String.data he
    rw [String.data_append] at h
    have e1 : ("-l ").data = ['-', 'l', ' '] := rfl
    have e2 : ("-m ae").data = ['-', 'm', ' ', 'a', 'e'] := rfl
    rw [e1, e2] at h
    simp at h
  have h4 : ¬ ("-v " ++ ev) = "-m ae" := by
    intro he
    have h := congrArg String.data he
    rw [String.data_append] at h
    have e1 : ("-v ").data = ['-', 'v', ' '] := rfl
    have e2 : ("-m ae").data = ['-', 'm', ' ', 'a', 'e'] := rfl
    rw [e1, e2] at h
    simp at h
  unfold pbs_submit_parts
  rw [List.contains_eq_any_beq]
  simp only [List.any_cons, List.any_nil, Bool.or_false, Bool.or_eq_false_iff]
  refine ⟨by decide, ?_, ?_, ?_⟩
  · rw [beq_eq_false_iff_ne]
    exact fun he => h2 he.symm
  · split
    · rw [beq_eq_false_iff_ne]
      exact fun he => h3 he.symm
    · decide
  · rw [beq_eq_false_iff_ne]
    exact fun he => h4 he.symm

/-- The submission loop attaches the child `--email` option exactly at the
final job: walking `submit_go` from any position with the child email still
unset, the per-job email-option flags are `false` until the last job and
`true` there. -/
theorem submit_go_email_flags
    (numJobs : Nat) (parentEmail : Option String) (childBase : List String)
    (taskArgstr : String) (jw : Nat) (ja js pv : String) (wt mg : Option Nat)
    (hemail : truthyOpt parentEmail = true)
    (hbase : ∀ p ∈ childBase, strStartsWith p ARGSTR_EMAIL = false)
    (htask : ∀ v, strStartsWith (cmdOptFragment taskArgstr v) ARGSTR_EMAIL = false) :
    ∀ (rest : List String) (jobNum : Nat), rest ≠ [] →
      jobNum + rest.length = numJobs + 1 →
      (submit_go numJobs parentEmail childBase taskArgstr jw ja js pv wt mg
          jobNum rest none).map JobSubmission.hasEmailOption
        = List.replicate (rest.length - 1) false ++ [true] := by
  intro rest
  induction rest with
  | nil => intro jobNum hne _; exact absurd rfl hne
  | cons t rest2 ih =>
      intro jobNum hne hlen
      obtain ⟨e, rfl⟩ : ∃ e, parentEmail = some e := by
        cases parentEmail with
        | none => simp [truthyOpt] at hemail
        | some e => exact ⟨e, rfl⟩
      cases rest2 with
      | nil =>
          have hj : jobNum = numJobs := by
            simp at hlen
            omega
          rw [submit_go]
          simp only [if_pos (And.intro hj hemail), List.map_cons, List.map_nil]
          rw [submit_go]
          have hopt : JobSubmission.hasEmailOption
              ⟨ja ++ formatZeroPad jw jobNum,
               childCmdFragments childBase taskArgstr t (some e),
               pbs_submit_parts (some (ja ++ formatZeroPad jw jobNum))
                 (time_hms_of wt none none) mg none (some e)
                 (some (cmd_envvars_of [js, ja,
                   String.intercalate " "
                     (childCmdFragments childBase taskArgstr t (some e)), pv]))⟩
              = true := by
            unfold JobSubmission.hasEmailOption
            have hmem : cmdOptFragment ARGSTR_EMAIL e
                ∈ childCmdFragments childBase taskArgstr t (some e) := by
              unfold childCmdFragments
              simp
            have hany : (childCmdFragments childBase taskArgstr t (some e)).any
                (fun p => strStartsWith p ARGSTR_EMAIL) = true :=
              List.any_eq_true.mpr
                ⟨cmdOptFragment ARGSTR_EMAIL e, hmem, cmdOptFragment_email_starts e⟩
            rw [hany, Bool.true_or]
          rw [hopt]
          rfl
      | cons t2 rest3 =>
          have hj : ¬(jobNum = numJobs ∧ truthyOpt (some e) = true) := by
            intro hc
            simp at hlen
            omega
          rw [submit_go]
          simp only [if_neg hj, List.map_cons]
          have hopt : JobSubmission.hasEmailOption
              ⟨ja ++ formatZeroPad jw jobNum,
               childCmdFragments childBase taskArgstr t none,
               pbs_submit_parts (some (ja ++ formatZeroPad jw jobNum))
                 (time_hms_of wt none none) mg none (some e)
                 (some (cmd_envvars_of [js, ja,
                   String.intercalate " "
                     (childCmdFragments childBase taskArgstr t none), pv]))⟩
              = false := by
            unfold JobSubmission.hasEmailOption
            have hany : (childCmdFragments childBase taskArgstr t none).any
                (fun p => strStartsWith p ARGSTR_EMAIL) = false := by
              rw [List.any_eq_false]
              intro p hp
              unfold childCmdFragments at hp
              simp only [List.append_nil, List.mem_append,
                List.mem_singleton] at hp
              rcases hp with hp | hp
              · simp [hbase p hp]
              · rw [hp]
                simp [htask t]
            rw [hany, pbs_parts_no_mae, Bool.or_false]
          rw [hopt]
          have hlen2 : jobNum + 1 + (t2 :: rest3).length = numJobs + 1 := by
            simp at hlen ⊢
            omega
          rw [ih (jobNum + 1) (by simp) hlen2]
          simp [List.replicate_succ]

/-- C9: for every batch submitted by one `submit_tasks_to_scheduler` run
with an email address configured, the email-on-completion option is part of
the submission command of the last job only: the child `--email` option
(which makes the spawned run send its completion email) is set for the last
job's child command — embedded in the submission command through the
environment-variable flag — and for no other job, and the scheduler-level
`-m ae` mail flag is never emitted when environment variables are passed. -/
theorem email_attached_only_to_last_job
    (childTasks : List String) (parentEmail : Option String)
    (childBase : List String) (taskArgstr job_abbrev jobscript pyver : String)
    (walltime_hr memory_gb : Option Nat)
    (hne : childTasks ≠ [])
    (hemail : truthyOpt parentEmail = true)
    (hbase : ∀ p ∈ childBase, strStartsWith p ARGSTR_EMAIL = false)
    (htask : ∀ v, strStartsWith (cmdOptFragment taskArgstr v) ARGSTR_EMAIL = false) :
    (submit_tasks_to_scheduler childTasks parentEmail childBase taskArgstr
        job_abbrev jobscript pyver walltime_hr memory_gb).map
      JobSubmission.hasEmailOption
      = List.replicate (childTasks.length - 1) false ++ [true] :=
  submit_go_email_flags childTasks.length parentEmail childBase taskArgstr
    (get_index_fmtstr_width childTasks.length 3) job_abbrev jobscript pyver
    walltime_hr memory_gb hemail hbase htask childTasks 1 hne (by omega)

/-- Witness for C9: a three-job batch with an email configured attaches the
email option to the third submission only. -/
theorem email_attached_only_to_last_job_witness :
    (submit_tasks_to_scheduler ["b1", "b2", "b3"] (some "user@host")
        ["--overwrite"] "--srclist" "ft" "jobscript.sh" "2.7"
        (some 4) (some 8)).map JobSubmission.hasEmailOption
      = [false, false, true] :=
  email_attached_only_to_last_job ["b1", "b2", "b3"] (some "user@host")
    ["--overwrite"] "--srclist" "ft" "jobscript.sh" "2.7" (some 4) (some 8)
    (by decide) (by decide) (by decide)
    (cmdOptFragment_not_email "--srclist" (by decide) (by decide))

/-- Every event of the eager-mkdir step is a directory creation. -/
theorem eagerMkdirStep_events (cfg : WalkCfg) (dstIsDir : List String → Bool)
    (dstdir : Option (List String)) (created : List (List String))
    (passes : Bool) :
    ∀ e ∈ (eagerMkdirStep cfg dstIsDir dstdir created passes).2.1,
      ∃ pp, e = WEvent.mkdirs pp := by
  intro e he
  unfold eagerMkdirStep at he
  cases dstdir with
  | none => simp at he
  | some d =>
      dsimp only [] at he
      by_cases h1 : cfg.copy_method.isNone = true
      · rw [if_pos h1] at he; simp at he
      · rw [if_neg h1] at he
        by_cases h2 : (dstIsDir d || created.contains d) = true
        · rw [if_pos h2] at he; simp at he
        · rw [if_neg h2] at he
          by_cases h3 : cfg.mkdir_upon_file_copy = true
          · rw [if_pos h3] at he; simp at he
          · rw [if_neg h3] at he
            by_cases h4 : passes = true
            · rw [if_pos h4] at he
              simp at he
              exact ⟨d, he⟩
            · rw [if_neg h4] at he; simp at he

/-- Every event of the copy block is a directory creation or an exec call on
one of the filtered files of the current directory. -/
theorem copySection_events (cfg : WalkCfg) (srcpath : List String)
    (dstdir : Option (List String)) (ex : Bool)
    (created : List (List String)) (passes : Bool) (fns : List String) :
    ∀ e ∈ (copySection cfg srcpath dstdir ex created passes fns).1,
      (∃ pp, e = WEvent.mkdirs pp) ∨
      (∃ fn dd, fn ∈ fns ∧ e = WEvent.execCall (srcpath ++ [fn]) dd) := by
  intro e he
  unfold copySection at he
  cases dstdir with
  | none => simp at he
  | some d =>
      dsimp only [] at he
      by_cases h1 : (passes && cfg.copy_method.isSome) = true
      · rw [if_pos h1] at he
        simp only [List.mem_append] at he
        rcases he with he | he
        · by_cases h2 : (!(match cfg.copy_method with
              | some cm => cm.dryrun
              | none => false) && !ex && (!cfg.mkdir_upon_file_copy || !fns.isEmpty)) = true
          · rw [if_pos h2] at he
            simp at he
            exact Or.inl ⟨d, he⟩
          · rw [if_neg h2] at he; simp at he
        · rcases List.mem_map.mp he with ⟨fn, hfn, rfl⟩
          exact Or.inr ⟨fn, d ++ [applyResubs cfg.fname_resub fn], hfn, rfl⟩
      · rw [if_neg h1] at he; simp at he

/-- Membership in the children loop's trace comes from one child's
recursive traversal, with the destination and `dmatch_depth` the loop
computes for that child. -/
theorem walkChildrenGo_mem
    (walkFn : List String → Option (List String) → Int → List (List String) →
      FSTree → List WEvent × List (List String))
    (cfg : WalkCfg) (srcpath : List String) (dst : Option (List String))
    (pN fN : Int) :
    ∀ (dirs : List (String × FSTree)) (created : List (List String)) (e : WEvent),
      e ∈ (walkChildrenGo walkFn cfg srcpath dst pN fN dirs created).1 →
      ∃ dn c cr, (dn, c) ∈ dirs ∧
        e ∈ (walkFn (srcpath ++ [dn]) (childDstNext cfg dst dn)
              (childDmatchNext cfg pN fN dn) cr c).1 := by
  intro dirs
  induction dirs with
  | nil => intro created e he; simp [walkChildrenGo] at he
  | cons hd rest ih =>
      intro created e he
      obtain ⟨dn, child⟩ := hd
      rw [walkChildrenGo.eq_def] at he
      dsimp only [] at he
      simp only [List.mem_append] at he
      rcases he with he | he
      · exact ⟨dn, child, created, List.mem_cons_self _ _, he⟩
      · obtain ⟨dn', c', cr', hmem, he'⟩ := ih _ e he
        exact ⟨dn', c', cr', List.mem_cons_of_mem _ hmem, he'⟩

/-- Every yield of a traversal lies at or below the entry source path, and
every exec call's source file lies strictly below it. -/
theorem walkF_src_below (cfg : WalkCfg) (dstIsDir : List String → Bool) :
    ∀ (fuel : Nat) (t : FSTree) (srcpath : List String)
      (dst : Option (List String)) (depth : Nat) (d : Int)
      (created : List (List String)),
      ∀ e ∈ (WalkObject.walkF cfg dstIsDir fuel srcpath dst depth d created t).1,
        (∀ q dn fn, e = WEvent.yld q dn fn → ∃ s, q = srcpath ++ s) ∧
        (∀ qs qd, e = WEvent.execCall qs qd → ∃ s, qs = srcpath ++ s ∧ s ≠ []) := by
  intro fuel
  induction fuel with
  | zero =>
      intro t srcpath dst depth d created e he
      rw [WalkObject.walkF] at he
      simp at he
  | succ fuel ih =>
      intro t srcpath dst depth d created e he
      cases t with
      | node dirs files =>
        rw [WalkObject.walkF] at he
        by_cases hgt : natGtOpt depth cfg.maxdepth = true
        · rw [if_pos hgt] at he; simp at he
        · rw [if_neg hgt] at he
          simp only [List.mem_append] at he
          rcases he with (he | he) | he
          · obtain ⟨pp, rfl⟩ := eagerMkdirStep_events _ _ _ _ _ e he
            exact ⟨fun q dn fn h => (by cases h), fun qs qd h => (by cases h)⟩
          · by_cases hmd : cfg.mindepth ≤ depth
            · rw [if_pos hmd] at he
              simp only [List.mem_append, List.mem_singleton] at he
              rcases he with he | he
              · rcases copySection_events _ _ _ _ _ _ _ e he with ⟨pp, rfl⟩ | ⟨fn, dd, _, rfl⟩
                · exact ⟨fun q dn fn h => (by cases h), fun qs qd h => (by cases h)⟩
                · refine ⟨fun q dn fn h => (by cases h), fun qs qd h => ?_⟩
                  cases h
                  exact ⟨[fn], rfl, by simp⟩
              · subst he
                exact ⟨fun q dn fn h => (by cases h; exact ⟨[], by simp⟩),
                       fun qs qd h => (by cases h)⟩
            · rw [if_neg hmd] at he; simp at he
          · by_cases hrec : (!(dirs.map Prod.fst).isEmpty &&
                natLtOpt depth cfg.maxdepth) = true
            · rw [if_pos hrec] at he
              obtain ⟨dn, c, cr, hmem, he'⟩ := walkChildrenGo_mem _ _ _ _ _ _ _ _ e he
              obtain ⟨hy, hx⟩ := ih c (srcpath ++ [dn]) _ _ _ cr e he'
              refine ⟨fun q dn' fn h => ?_, fun qs qd h => ?_⟩
              · obtain ⟨s, rfl⟩ := hy q dn' fn h
                exact ⟨dn :: s, by simp⟩
              · obtain ⟨s, rfl, hs⟩ := hx qs qd h
                exact ⟨dn :: s, by simp, by simp⟩
            · rw [if_neg hrec] at he; simp at he

/-- `lookupChild` finds the first child with the given name. -/
theorem lookupChild_cons_self (n : String) (c : FSTree)
    (rest : List (String × FSTree)) :
    lookupChild ((n, c) :: rest) n = some c := by
  unfold lookupChild
  rw [List.find?_cons]
  simp

/-- `lookupChild` skips heads with a different name. -/
theorem lookupChild_cons_ne (m n : String) (c : FSTree)
    (rest : List (String × FSTree)) (hmn : ¬m = n) :
    lookupChild ((m, c) :: rest) n = lookupChild rest n := by
  unfold lookupChild
  rw [List.find?_cons]
  have : ((m, c).1 == n) = false := by
    rw [beq_eq_false_iff_ne]
    exact hmn
  rw [this]

/-- Children loops over directories that do not contain the child name `n`
contribute no events whose source path starts with `srcpath ++ [n]`. -/
theorem walkChildrenGo_countP_zero
    (walkFn : List String → Option (List String) → Int → List (List String) →
      FSTree → List WEvent × List (List String))
    (cfg : WalkCfg) (srcpath : List String) (dst : Option (List String))
    (pN fN : Int) (P : WEvent → Bool) (n : String) (p' : List String)
    (hP : ∀ e, P e = true → evSrcPath e = some (srcpath ++ n :: p'))
    (hpre : ∀ (m : String) (c : FSTree) (dstN : Option (List String)) (dm : Int)
        (cr : List (List String)),
        ∀ e ∈ (walkFn (srcpath ++ [m]) dstN dm cr c).1,
          ∀ q, evSrcPath e = some q → ∃ s, q = (srcpath ++ [m]) ++ s) :
    ∀ (dirs : List (String × FSTree)) (created : List (List String)),
      (∀ c, (n, c) ∉ dirs) →
      ((walkChildrenGo walkFn cfg srcpath dst pN fN dirs created).1.countP P)
        = 0 := by
  intro dirs
  induction dirs with
  | nil => intro created _; simp [walkChildrenGo]
  | cons hd rest ih =>
      intro created hnone
      obtain ⟨m, c⟩ := hd
      have hmn : ¬m = n := by
        intro he
        exact hnone c (by rw [← he]; exact List.mem_cons_self _ _)
      rw [walkChildrenGo.eq_def]
      dsimp only []
      rw [List.countP_append]
      have h1 : (List.countP P (walkFn (srcpath ++ [m]) (childDstNext cfg dst m)
          (childDmatchNext cfg pN fN m) created c).1) = 0 := by
        rw [List.countP_eq_zero]
        intro e he hPe
        have hq := hP e hPe
        obtain ⟨s, hs⟩ := hpre m c _ _ created e he _ hq
        rw [List.append_assoc] at hs
        have := List.append_cancel_left hs
        simp at this
        exact hmn this.1.symm
      rw [h1]
      simp only [Nat.zero_add]
      exact ih _ (fun c' hc' => hnone c' (List.mem_cons_of_mem _ hc'))

/-- Counting events about the subtree named `n` in the children loop: only
the uniquely-named child `n` contributes, and its contribution is whatever
the recursive traversal of that child produces (for any created-set
state). -/
theorem walkChildrenGo_countP
    (walkFn : List String → Option (List String) → Int → List (List String) →
      FSTree → List WEvent × List (List String))
    (cfg : WalkCfg) (srcpath : List String) (dst : Option (List String))
    (pN fN : Int) (P : WEvent → Bool) (n : String) (p' : List String)
    (hP : ∀ e, P e = true → evSrcPath e = some (srcpath ++ n :: p'))
    (hpre : ∀ (m : String) (c : FSTree) (dstN : Option (List String)) (dm : Int)
        (cr : List (List String)),
        ∀ e ∈ (walkFn (srcpath ++ [m]) dstN dm cr c).1,
          ∀ q, evSrcPath e = some q → ∃ s, q = (srcpath ++ [m]) ++ s)
    (k : Nat) :
    ∀ (dirs : List (String × FSTree)) (created : List (List String)),
      (dirs.map Prod.fst).Nodup →
      ((∃ c₀, lookupChild dirs n = some c₀ ∧
          ∀ cr, ((walkFn (srcpath ++ [n]) (childDstNext cfg dst n)
              (childDmatchNext cfg pN fN n) cr c₀).1.countP P) = k) ∨
        (lookupChild dirs n = none ∧ k = 0)) →
      ((walkChildrenGo walkFn cfg srcpath dst pN fN dirs created).1.countP P)
        = k := by
  intro dirs
  induction dirs with
  | nil =>
      intro created _ hk
      rcases hk with ⟨c₀, hc₀, _⟩ | ⟨_, rfl⟩
      · exact absurd hc₀ (by simp [lookupChild])
      · simp [walkChildrenGo]
  | cons hd rest ih =>
      intro created hnodup hk
      obtain ⟨m, c⟩ := hd
      rw [walkChildrenGo.eq_def]
      dsimp only []
      rw [List.countP_append]
      by_cases hmn : m = n
      · subst hmn
        rcases hk with ⟨c₀, hc₀, hcnt⟩ | ⟨hc₀, rfl⟩
        · rw [lookupChild_cons_self] at hc₀
          injection hc₀ with hc₀
          subst hc₀
          have hrest : ∀ cr2, (List.countP P (walkChildrenGo walkFn cfg srcpath
              dst pN fN rest cr2).1) = 0 := by
            intro cr2
            refine walkChildrenGo_countP_zero walkFn cfg srcpath dst pN fN P m p'
              hP hpre rest _ ?_
            intro c' hc'
            simp only [List.map_cons, List.nodup_cons] at hnodup
            exact hnodup.1 (List.mem_map.mpr ⟨(m, c'), hc', rfl⟩)
          rw [hcnt created, hrest]
          exact Nat.add_zero k
        · rw [lookupChild_cons_self] at hc₀
          cases hc₀
      · rcases hk with ⟨c₀, hc₀, hcnt⟩ | ⟨hc₀, rfl⟩
        · rw [lookupChild_cons_ne _ _ _ _ hmn] at hc₀
          have h1 : (List.countP P (walkFn (srcpath ++ [m]) (childDstNext cfg dst m)
              (childDmatchNext cfg pN fN m) created c).1) = 0 := by
            rw [List.countP_eq_zero]
            intro e he hPe
            have hq := hP e hPe
            obtain ⟨s, hs⟩ := hpre m c _ _ created e he _ hq
            rw [List.append_assoc] at hs
            have := List.append_cancel_left hs
            simp at this
            exact hmn this.1.symm
          rw [h1]
          simp only [List.map_cons, List.nodup_cons] at hnodup
          simp only [Nat.zero_add]
          exact ih _ hnodup.2 (Or.inl ⟨c₀, hc₀, hcnt⟩)
        · rw [lookupChild_cons_ne _ _ _ _ hmn] at hc₀
          have h1 : (List.countP P (walkFn (srcpath ++ [m]) (childDstNext cfg dst m)
              (childDmatchNext cfg pN fN m) created c).1) = 0 := by
            rw [List.countP_eq_zero]
            intro e he hPe
            have hq := hP e hPe
            obtain ⟨s, hs⟩ := hpre m c _ _ created e he _ hq
            rw [List.append_assoc] at hs
            have := List.append_cancel_left hs
            simp at this
            exact hmn this.1.symm
          rw [h1]
          simp only [List.map_cons, List.nodup_cons] at hnodup
          simp only [Nat.zero_add]
          exact ih _ hnodup.2 (Or.inr ⟨hc₀, rfl⟩)

/-- A child listed in a well-formed directory is itself well-formed. -/
theorem FSTree.Wf.child (dirs : List (String × FSTree)) (files : List String)
    (dn : String) (c : FSTree) (hwf : FSTree.Wf (FSTree.node dirs files))
    (hmem : (dn, c) ∈ dirs) : FSTree.Wf c := by
  cases hwf with
  | node _ _ _ _ hch => exact hch (dn, c) hmem

/-- Subtrees of a well-formed tree are well-formed. -/
theorem Wf_subtreeAt (p : List String) :
    ∀ (t t' : FSTree), FSTree.Wf t → subtreeAt t p = some t' →
      FSTree.Wf t' := by
  induction p with
  | nil =>
      intro t t' hwf hsub
      cases hsub
      exact hwf
  | cons n p ih =>
      intro t t' hwf hsub
      cases t with
      | node dirs files =>
          rw [subtreeAt] at hsub
          cases hlk : lookupChild (FSTree.node dirs files).dirs n with
          | none => rw [hlk] at hsub; cases hsub
          | some c =>
              rw [hlk] at hsub
              unfold lookupChild at hlk
              cases hf : List.find? (fun x => x.1 == n) (FSTree.node dirs files).dirs with
              | none => rw [hf] at hlk; cases hlk
              | some pr =>
                  rw [hf] at hlk
                  injection hlk with hlk
                  have hmem := List.mem_of_find?_eq_some hf
                  refine ih c t' ?_ hsub
                  refine FSTree.Wf.child dirs files pr.1 c hwf ?_
                  rw [← hlk]
                  exact hmem

/-- `lookupChild` success yields a member of the listing with that name. -/
theorem lookupChild_mem (dirs : List (String × FSTree)) (n : String)
    (c : FSTree) (h : lookupChild dirs n = some c) : (n, c) ∈ dirs := by
  unfold lookupChild at h
  cases hf : List.find? (fun x => x.1 == n) dirs with
  | none => rw [hf] at h; cases h
  | some pr =>
      rw [hf] at h
      injection h with h
      have hmem := List.mem_of_find?_eq_some hf
      have hn := List.find?_some hf
      simp only [beq_iff_eq] at hn
      have : (n, c) = pr := by
        cases pr with
        | mk a b =>
            simp only at hn h
            rw [hn, h]
      rw [this]
      exact hmem

/-- A subdirectory's subtree is structurally smaller than its directory. -/
theorem sizeOf_child_lt (dn : String) (c : FSTree)
    (dirs : List (String × FSTree)) (files : List String)
    (h : (dn, c) ∈ dirs) : sizeOf c < sizeOf (FSTree.node dirs files) := by
  have h1 := List.sizeOf_lt_of_mem h
  have h2 : sizeOf (dn, c) = 1 + sizeOf dn + sizeOf c := rfl
  simp only [FSTree.node.sizeOf_spec]
  omega

/-- Being within the depth bound is downward closed. -/
theorem natGtOpt_mono_false (a b : Nat) (mx : Option Nat) (hab : a ≤ b)
    (hb : natGtOpt b mx = false) : natGtOpt a mx = false := by
  cases mx with
  | none => rfl
  | some m =>
      simp only [natGtOpt, decide_eq_false_iff_not, Nat.not_lt] at hb ⊢
      omega

/-- Strictly inside the depth bound when a deeper level is still within it. -/
theorem natLtOpt_of_gtFalse (a b : Nat) (mx : Option Nat) (hab : a < b)
    (hb : natGtOpt b mx = false) : natLtOpt a mx = true := by
  cases mx with
  | none => rfl
  | some m =>
      simp only [natGtOpt, decide_eq_false_iff_not, Nat.not_lt] at hb
      simp only [natLtOpt, decide_eq_true_eq]
      omega

/-- The effective `dmatch_depth` along a path unfolds one segment at a time:
below the entry level the depth-1 entry adjustment is the identity. -/
theorem dmatchAt_cons (cfg : WalkCfg) (srcpath : List String) (depth : Nat)
    (d : Int) (dn : String) (p : List String) (hdepth : 1 ≤ depth) :
    dmatchAt cfg srcpath depth d (dn :: p) =
      dmatchAt cfg (srcpath ++ [dn]) (depth + 1)
        (dmatchStep cfg (dmatchEntry cfg srcpath depth d) dn) p := by
  unfold dmatchAt
  rw [List.foldl_cons]
  have : dmatchEntry cfg (srcpath ++ [dn]) (depth + 1)
      (dmatchStep cfg (dmatchEntry cfg srcpath depth d) dn) =
      dmatchStep cfg (dmatchEntry cfg srcpath depth d) dn := by
    unfold dmatchEntry
    rw [if_neg]
    intro hcon
    omega
  rw [this]

/-- The per-child destination is configured exactly when the parent's is. -/
theorem childDstNext_isSome (cfg : WalkCfg) (dst : Option (List String))
    (dn : String) : (childDstNext cfg dst dn).isSome = dst.isSome := by
  cases dst with
  | none => rfl
  | some dd =>
      unfold childDstNext
      dsimp only []
      by_cases h : cfg.collapse_tree = true
      · rw [if_pos h]
      · rw [if_neg h]
        rfl

/-- An event produced by one listed child's recursive traversal (for every
created-set state) appears in the children loop's trace. -/
theorem walkChildrenGo_mem_of
    (walkFn : List String → Option (List String) → Int → List (List String) →
      FSTree → List WEvent × List (List String))
    (cfg : WalkCfg) (srcpath : List String) (dst : Option (List String))
    (pN fN : Int) (dn : String) (c : FSTree) (e : WEvent) :
    ∀ (dirs : List (String × FSTree)) (created : List (List String)),
      (dn, c) ∈ dirs →
      (∀ cr, e ∈ (walkFn (srcpath ++ [dn]) (childDstNext cfg dst dn)
          (childDmatchNext cfg pN fN dn) cr c).1) →
      e ∈ (walkChildrenGo walkFn cfg srcpath dst pN fN dirs created).1 := by
  intro dirs
  induction dirs with
  | nil => intro created hmem _; cases hmem
  | cons hd rest ih =>
      intro created hmem hall
      obtain ⟨m, c'⟩ := hd
      rw [walkChildrenGo.eq_def]
      dsimp only []
      rw [List.mem_append]
      rcases List.mem_cons.mp hmem with heq | hrest
      · injection heq with h1 h2
        subst h1
        subst h2
        exact Or.inl (hall created)
      · exact Or.inr (ih _ hrest hall)

/-- The child selector applied to the canonical pass/fail successors is the
`dmatch_depth` transition. -/
theorem childDmatchNext_step (cfg : WalkCfg) (D : Int) (dn : String) :
    childDmatchNext cfg (passNextOf D) (failNextOf D) dn = dmatchStep cfg D dn := rfl

/-- The eager-mkdir step contributes nothing to a count of non-`mkdirs`
events. -/
theorem eagerMkdirStep_countP (cfg : WalkCfg) (dstIsDir : List String → Bool)
    (dst : Option (List String)) (created : List (List String)) (ps : Bool)
    (P : WEvent → Bool) (hP : ∀ pp, P (WEvent.mkdirs pp) = false) :
    (eagerMkdirStep cfg dstIsDir dst created ps).2.1.countP P = 0 := by
  rw [List.countP_eq_zero]
  intro e he hPe
  obtain ⟨pp, rfl⟩ := eagerMkdirStep_events cfg dstIsDir dst created ps e he
  rw [hP] at hPe
  cases hPe

/-- The copy block contributes no generator-yield events. -/
theorem copySection_countP_yld (cfg : WalkCfg) (srcpath : List String)
    (dst : Option (List String)) (ex : Bool) (created : List (List String))
    (ps : Bool) (fns : List String) (q : List String) :
    (copySection cfg srcpath dst ex created ps fns).1.countP (isYldAt q) = 0 := by
  rw [List.countP_eq_zero]
  intro e he hPe
  rcases copySection_events cfg srcpath dst ex created ps fns e he with
    ⟨pp, rfl⟩ | ⟨fn, dd, _, rfl⟩ <;> simp [isYldAt] at hPe

/-- The children loop of a traversal never re-yields the parent directory:
every yield below lies at a strictly longer source path. -/
theorem walkChildrenGo_no_parent_yld (cfg : WalkCfg)
    (dstIsDir : List String → Bool) (fuel : Nat) (depth : Nat)
    (srcpath : List String) (dst : Option (List String)) (pN fN : Int)
    (dirs : List (String × FSTree)) (created : List (List String)) :
    ∀ e ∈ (walkChildrenGo
        (fun sp dst2 dm cr t =>
          WalkObject.walkF cfg dstIsDir fuel sp dst2 (depth + 1) dm cr t)
        cfg srcpath dst pN fN dirs created).1,
      isYldAt srcpath e = false := by
  intro e he
  obtain ⟨dn, c, cr, _, he'⟩ :=
    walkChildrenGo_mem _ cfg srcpath dst pN fN dirs created e he
  cases e with
  | mkdirs pp => rfl
  | execCall qs qd => rfl
  | yld q dns fns =>
      obtain ⟨s, rfl⟩ :=
        (walkF_src_below cfg dstIsDir fuel c (srcpath ++ [dn]) _ _ _ cr
          _ he').1 _ dns fns rfl
      simp only [isYldAt]
      rw [beq_eq_false_iff_ne]
      intro hcon
      have := congrArg List.length hcon
      simp only [List.length_append, List.length_cons] at this
      omega

/-- The children loop of a traversal issues no transfer for a file directly
inside the parent directory: transfer sources below lie at least two
segments down. -/
theorem walkChildrenGo_no_parent_exec (cfg : WalkCfg)
    (dstIsDir : List String → Bool) (fuel : Nat) (depth : Nat)
    (srcpath : List String) (dst : Option (List String)) (pN fN : Int)
    (dirs : List (String × FSTree)) (created : List (List String))
    (f : String) :
    ∀ e ∈ (walkChildrenGo
        (fun sp dst2 dm cr t =>
          WalkObject.walkF cfg dstIsDir fuel sp dst2 (depth + 1) dm cr t)
        cfg srcpath dst pN fN dirs created).1,
      isExecSrc (srcpath ++ [f]) e = false := by
  intro e he
  obtain ⟨dn, c, cr, _, he'⟩ :=
    walkChildrenGo_mem _ cfg srcpath dst pN fN dirs created e he
  cases e with
  | mkdirs pp => rfl
  | yld q dns fns => rfl
  | execCall qs qd =>
      obtain ⟨s, rfl, hs⟩ :=
        (walkF_src_below cfg dstIsDir fuel c (srcpath ++ [dn]) _ _ _ cr
          _ he').2 _ qd rfl
      simp only [isExecSrc]
      rw [beq_eq_false_iff_ne]
      intro hcon
      have hlen := congrArg List.length hcon
      have hs1 : 1 ≤ s.length := by
        cases s with
        | nil => exact absurd rfl hs
        | cons a s => simp
      simp only [List.length_append, List.length_cons] at hlen
      omega

/-- Master lemma for the traversal's yields: the directory reached by any
relative path `p` within the depth bounds is yielded exactly once, and its
yield carries the filtered subdirectory-name and file-name lists decided by
the directory's effective `dmatch_depth`. -/
theorem walkF_yld_master (cfg : WalkCfg) (dstIsDir : List String → Bool) :
    ∀ (fuel : Nat) (t : FSTree) (srcpath : List String)
      (dst : Option (List String)) (depth : Nat) (d : Int)
      (created : List (List String)) (p : List String) (t' : FSTree),
      FSTree.Wf t → sizeOf t ≤ fuel → subtreeAt t p = some t' →
      1 ≤ depth →
      natGtOpt (depth + p.length) cfg.maxdepth = false →
      cfg.mindepth ≤ depth + p.length →
      ((WalkObject.walkF cfg dstIsDir fuel srcpath dst depth d created t).1.countP
          (isYldAt (srcpath ++ p)) = 1 ∧
        WEvent.yld (srcpath ++ p)
            (dnamesFilteredOf cfg
              (dirPassesB cfg (dmatchAt cfg srcpath depth d p))
              (t'.dirs.map Prod.fst))
            (fnamesFilteredOf cfg
              (dirPassesB cfg (dmatchAt cfg srcpath depth d p))
              t'.files)
          ∈ (WalkObject.walkF cfg dstIsDir fuel srcpath dst depth d created t).1) := by
  intro fuel
  induction fuel with
  | zero =>
      intro t srcpath dst depth d created p t' hwf hfuel hsub hdep hmax hmin
      exfalso
      cases t with
      | node dirs files =>
          simp only [FSTree.node.sizeOf_spec] at hfuel
          omega
  | succ fuel ih =>
      intro t srcpath dst depth d created p t' hwf hfuel hsub hdep hmax hmin
      cases t with
      | node dirs files =>
      have hgtP : ¬natGtOpt depth cfg.maxdepth = true := by
        rw [natGtOpt_mono_false depth (depth + p.length) _ (Nat.le_add_right _ _) hmax]
        simp
      cases p with
      | nil =>
          rw [subtreeAt] at hsub
          injection hsub with hsub
          subst hsub
          have hmin0 : cfg.mindepth ≤ depth := by simpa using hmin
          simp only [List.append_nil, dmatchAt, List.foldl_nil, FSTree.dirs,
            FSTree.files]
          rw [WalkObject.walkF]
          rw [if_neg hgtP]
          constructor
          · simp only [List.countP_append]
            rw [if_pos hmin0]
            rw [eagerMkdirStep_countP cfg dstIsDir dst created _ _
              (fun pp => rfl)]
            dsimp only []
            rw [List.countP_append]
            rw [copySection_countP_yld]
            have hone : List.countP (isYldAt srcpath)
                [WEvent.yld srcpath
                  (dnamesFilteredOf cfg
                    (dirPassesB cfg (dmatchEntry cfg srcpath depth d))
                    (dirs.map Prod.fst))
                  (fnamesFilteredOf cfg
                    (dirPassesB cfg (dmatchEntry cfg srcpath depth d)) files)]
                = 1 := by
              simp [isYldAt, List.countP_cons]
            rw [hone]
            by_cases hrec : (!(dirs.map Prod.fst).isEmpty &&
                natLtOpt depth cfg.maxdepth) = true
            · rw [if_pos hrec]
              have hz : List.countP (isYldAt srcpath)
                  (walkChildrenGo
                    (fun sp dst2 dm cr t =>
                      WalkObject.walkF cfg dstIsDir fuel sp dst2 (depth + 1) dm cr t)
                    cfg srcpath dst
                    (passNextOf (dmatchEntry cfg srcpath depth d))
                    (failNextOf (dmatchEntry cfg srcpath depth d)) dirs
                    (copySection cfg srcpath dst
                      (eagerMkdirStep cfg dstIsDir dst created
                        (dirPassesB cfg (dmatchEntry cfg srcpath depth d))).1
                      (eagerMkdirStep cfg dstIsDir dst created
                        (dirPassesB cfg (dmatchEntry cfg srcpath depth d))).2.2
                      (dirPassesB cfg (dmatchEntry cfg srcpath depth d))
                      (fnamesFilteredOf cfg
                        (dirPassesB cfg (dmatchEntry cfg srcpath depth d))
                        files)).2).1 = 0 := by
                rw [List.countP_eq_zero]
                intro e he hPe
                rw [walkChildrenGo_no_parent_yld cfg dstIsDir fuel depth srcpath
                  dst _ _ dirs _ e he] at hPe
                cases hPe
              rw [hz]
            · rw [if_neg hrec]
              rfl
          · simp only [List.mem_append]
            rw [if_pos hmin0]
            simp only [List.mem_append, List.mem_singleton]
            exact Or.inl (Or.inr (Or.inr trivial))
      | cons dn p' =>
          rw [subtreeAt] at hsub
          simp only [FSTree.dirs] at hsub
          cases hlk : lookupChild dirs dn with
          | none => rw [hlk] at hsub; cases hsub
          | some c =>
          rw [hlk] at hsub
          have hmem := lookupChild_mem dirs dn c hlk
          have hwfc := FSTree.Wf.child dirs files dn c hwf hmem
          have hszc : sizeOf c ≤ fuel := by
            have := sizeOf_child_lt dn c dirs files hmem
            omega
          have hne : (dirs.map Prod.fst).isEmpty = false := by
            cases dirs with
            | nil => cases hmem
            | cons a l => rfl
          have hlt : natLtOpt depth cfg.maxdepth = true := by
            refine natLtOpt_of_gtFalse depth (depth + (dn :: p').length) _ ?_ hmax
            simp only [List.length_cons]
            omega
          have hrecC : (!(dirs.map Prod.fst).isEmpty &&
              natLtOpt depth cfg.maxdepth) = true := by
            rw [hne, hlt]
            rfl
          have hmax' : natGtOpt (depth + 1 + p'.length) cfg.maxdepth = false := by
            refine natGtOpt_mono_false _ (depth + (dn :: p').length) _ ?_ hmax
            simp only [List.length_cons]
            omega
          have hmin' : cfg.mindepth ≤ depth + 1 + p'.length := by
            simp only [List.length_cons] at hmin
            omega
          have hdep' : 1 ≤ depth + 1 := by omega
          have hbne : (srcpath == srcpath ++ dn :: p') = false := by
            rw [beq_eq_false_iff_ne]
            intro hcon
            have := congrArg List.length hcon
            simp only [List.length_append, List.length_cons] at this
            omega
          rw [WalkObject.walkF]
          rw [if_neg hgtP]
          constructor
          · simp only [List.countP_append]
            rw [eagerMkdirStep_countP cfg dstIsDir dst created _ _
              (fun pp => rfl)]
            rw [if_pos hrecC]
            have hkids : ∀ cr, List.countP (isYldAt (srcpath ++ dn :: p'))
                (walkChildrenGo
                  (fun sp dst2 dm cr2 t =>
                    WalkObject.walkF cfg dstIsDir fuel sp dst2 (depth + 1) dm cr2 t)
                  cfg srcpath dst
                  (passNextOf (dmatchEntry cfg srcpath depth d))
                  (failNextOf (dmatchEntry cfg srcpath depth d)) dirs cr).1
                = 1 := by
              intro cr
              refine walkChildrenGo_countP _ cfg srcpath dst _ _
                (isYldAt (srcpath ++ dn :: p')) dn p' ?_ ?_ 1 dirs cr ?_ ?_
              · intro e hPe
                cases e with
                | mkdirs pp => simp [isYldAt] at hPe
                | execCall qs qd => simp [isYldAt] at hPe
                | yld q dns fns =>
                    simp only [isYldAt, beq_iff_eq] at hPe
                    subst hPe
                    rfl
              · intro m c2 dstN dm cr2 e he q hq
                have h := walkF_src_below cfg dstIsDir fuel c2 (srcpath ++ [m])
                  dstN (depth + 1) dm cr2 e he
                cases e with
                | mkdirs pp => cases hq
                | yld q2 dns fns =>
                    injection hq with hq
                    subst hq
                    exact h.1 _ dns fns rfl
                | execCall qs qd =>
                    injection hq with hq
                    subst hq
                    obtain ⟨s, hs, _⟩ := h.2 _ qd rfl
                    exact ⟨s, hs⟩
              · cases hwf with
                | node _ _ hnd _ _ => exact hnd
              · refine Or.inl ⟨c, hlk, ?_⟩
                intro cr2
                have h := (ih c (srcpath ++ [dn]) (childDstNext cfg dst dn)
                  (depth + 1)
                  (childDmatchNext cfg
                    (passNextOf (dmatchEntry cfg srcpath depth d))
                    (failNextOf (dmatchEntry cfg srcpath depth d)) dn) cr2 p' t'
                  hwfc hszc hsub hdep' hmax' hmin').1
                rw [← List.append_cons] at h
                exact h
            rw [hkids]
            by_cases hmd : cfg.mindepth ≤ depth
            · rw [if_pos hmd]
              dsimp only []
              rw [List.countP_append]
              rw [copySection_countP_yld]
              have hz : List.countP (isYldAt (srcpath ++ dn :: p'))
                  [WEvent.yld srcpath
                    (dnamesFilteredOf cfg
                      (dirPassesB cfg (dmatchEntry cfg srcpath depth d))
                      (dirs.map Prod.fst))
                    (fnamesFilteredOf cfg
                      (dirPassesB cfg (dmatchEntry cfg srcpath depth d)) files)]
                  = 0 := by
                simp [isYldAt, List.countP_cons, hbne]
              rw [hz]
            · rw [if_neg hmd]
              dsimp only []
              rfl
          · rw [dmatchAt_cons cfg srcpath depth d dn p' hdep]
            rw [← childDmatchNext_step cfg (dmatchEntry cfg srcpath depth d) dn]
            rw [List.append_cons srcpath dn p']
            dsimp only []
            rw [if_pos hrecC]
            refine List.mem_append_right _ ?_
            refine walkChildrenGo_mem_of _ cfg srcpath dst _ _ dn c _ dirs _
              hmem ?_
            intro cr
            exact (ih c (srcpath ++ [dn]) (childDstNext cfg dst dn) (depth + 1)
              (childDmatchNext cfg
                (passNextOf (dmatchEntry cfg srcpath depth d))
                (failNextOf (dmatchEntry cfg srcpath depth d)) dn) cr p' t'
              hwfc hszc hsub hdep' hmax' hmin').2

/-- Appending distinct last segments to the same directory path gives
distinct file paths. -/
theorem beq_append_singleton (srcpath : List String) (a f : String) :
    (srcpath ++ [a] == srcpath ++ [f]) = (a == f) := by
  by_cases h : a = f
  · subst h
    simp
  · have h1 : (srcpath ++ [a] == srcpath ++ [f]) = false := by
      rw [beq_eq_false_iff_ne]
      intro hcon
      have h2 := List.append_cancel_left hcon
      injection h2 with h3 _
      exact h h3
    have h2 : (a == f) = false := by
      rw [beq_eq_false_iff_ne]
      exact h
    rw [h1, h2]

/-- Counting the transfer calls of the copy block's per-file loop that
target file `f`: one per occurrence of `f` in the filtered list. -/
theorem execEvs_countP (srcpath : List String) (f : String)
    (g : String → List String) :
    ∀ l : List String,
      ((l.map (fun fn => WEvent.execCall (srcpath ++ [fn]) (g fn))).countP
        (isExecSrc (srcpath ++ [f]))) = l.count f := by
  intro l
  induction l with
  | nil => rfl
  | cons a l ih =>
      simp only [List.map_cons, List.countP_cons, List.count_cons]
      rw [ih]
      congr 1
      show (if (srcpath ++ [a] == srcpath ++ [f]) = true then 1 else 0) =
        if (a == f) = true then 1 else 0
      rw [beq_append_singleton]

/-- A generator yield is never counted as a transfer call. -/
theorem countP_execSrc_yld (tgt q dns fns : List String) :
    List.countP (isExecSrc tgt) [WEvent.yld q dns fns] = 0 := rfl

/-- Master lemma for the traversal's transfer calls: with a copy method and
a destination configured, exactly one `CopyMethod.exec` call is issued for
each file of each depth-admissible reachable directory that survives the
file-name filtering. -/
theorem walkF_exec_master (cfg : WalkCfg) (dstIsDir : List String → Bool) :
    ∀ (fuel : Nat) (t : FSTree) (srcpath : List String)
      (dst : Option (List String)) (depth : Nat) (d : Int)
      (created : List (List String)) (p : List String) (t' : FSTree)
      (f : String),
      FSTree.Wf t → sizeOf t ≤ fuel → subtreeAt t p = some t' →
      1 ≤ depth →
      natGtOpt (depth + p.length) cfg.maxdepth = false →
      cfg.mindepth ≤ depth + p.length →
      cfg.copy_method.isSome = true → dst.isSome = true →
      f ∈ fnamesFilteredOf cfg
          (dirPassesB cfg (dmatchAt cfg srcpath depth d p)) t'.files →
      (WalkObject.walkF cfg dstIsDir fuel srcpath dst depth d created t).1.countP
          (isExecSrc (srcpath ++ p ++ [f])) = 1 := by
  intro fuel
  induction fuel with
  | zero =>
      intro t srcpath dst depth d created p t' f hwf hfuel hsub hdep hmax hmin
        hcm hds hf
      exfalso
      cases t with
      | node dirs files =>
          simp only [FSTree.node.sizeOf_spec] at hfuel
          omega
  | succ fuel ih =>
      intro t srcpath dst depth d created p t' f hwf hfuel hsub hdep hmax hmin
        hcm hds hf
      cases t with
      | node dirs files =>
      have hgtP : ¬natGtOpt depth cfg.maxdepth = true := by
        rw [natGtOpt_mono_false depth (depth + p.length) _ (Nat.le_add_right _ _) hmax]
        simp
      cases p with
      | nil =>
          rw [subtreeAt] at hsub
          injection hsub with hsub
          subst hsub
          cases dst with
          | none => cases hds
          | some d0 =>
          have hmin0 : cfg.mindepth ≤ depth := by simpa using hmin
          simp only [dmatchAt, List.foldl_nil, FSTree.files] at hf
          have hpass : dirPassesB cfg (dmatchEntry cfg srcpath depth d) = true := by
            by_cases hq : dirPassesB cfg (dmatchEntry cfg srcpath depth d) = true
            · exact hq
            · rw [Bool.not_eq_true] at hq
              rw [fnamesFilteredOf, hq] at hf
              simp at hf
          rw [fnamesFilteredOf, hpass] at hf
          simp only [if_true] at hf
          have hnd : (files.filter
              (nameMatches cfg.fname_rematch cfg.fname_reexcl)).Nodup := by
            cases hwf with
            | node _ _ _ hndf _ => exact List.Nodup.filter _ hndf
          simp only [List.append_nil]
          rw [WalkObject.walkF]
          rw [if_neg hgtP]
          simp only [List.countP_append]
          rw [eagerMkdirStep_countP cfg dstIsDir (some d0) created _ _
            (fun pp => rfl)]
          rw [if_pos hmin0]
          dsimp only []
          rw [List.countP_append]
          rw [copySection.eq_def]
          dsimp only []
          rw [if_pos (by rw [hpass, hcm]; rfl)]
          dsimp only []
          rw [List.countP_append]
          rw [fnamesFilteredOf, hpass]
          simp only [if_true]
          rw [execEvs_countP srcpath f _ _]
          rw [List.count_eq_one_of_mem hnd hf]
          have hmk : ∀ (cond : Bool) (cr1 : List (List String)),
              List.countP (isExecSrc (srcpath ++ [f]))
                (if cond = true then ([WEvent.mkdirs d0], d0 :: cr1)
                 else (([] : List WEvent), cr1)).1 = 0 := by
            intro cond cr1
            cases cond with
            | true => rfl
            | false => rfl
          rw [hmk]
          rw [countP_execSrc_yld]
          by_cases hrec : (!(dirs.map Prod.fst).isEmpty &&
              natLtOpt depth cfg.maxdepth) = true
          · rw [if_pos hrec]
            have hz : ∀ cr, List.countP (isExecSrc (srcpath ++ [f]))
                (walkChildrenGo
                  (fun sp dst2 dm cr2 t =>
                    WalkObject.walkF cfg dstIsDir fuel sp dst2 (depth + 1) dm cr2 t)
                  cfg srcpath (some d0)
                  (passNextOf (dmatchEntry cfg srcpath depth d))
                  (failNextOf (dmatchEntry cfg srcpath depth d)) dirs cr).1
                = 0 := by
              intro cr
              rw [List.countP_eq_zero]
              intro e he hPe
              rw [walkChildrenGo_no_parent_exec cfg dstIsDir fuel depth srcpath
                (some d0) _ _ dirs cr f e he] at hPe
              cases hPe
            rw [hz]
          · rw [if_neg hrec]
            rfl
      | cons dn p' =>
          rw [subtreeAt] at hsub
          simp only [FSTree.dirs] at hsub
          cases hlk : lookupChild dirs dn with
          | none => rw [hlk] at hsub; cases hsub
          | some c =>
          rw [hlk] at hsub
          have hmem := lookupChild_mem dirs dn c hlk
          have hwfc := FSTree.Wf.child dirs files dn c hwf hmem
          have hszc : sizeOf c ≤ fuel := by
            have := sizeOf_child_lt dn c dirs files hmem
            omega
          have hne : (dirs.map Prod.fst).isEmpty = false := by
            cases dirs with
            | nil => cases hmem
            | cons a l => rfl
          have hlt : natLtOpt depth cfg.maxdepth = true := by
            refine natLtOpt_of_gtFalse depth (depth + (dn :: p').length) _ ?_ hmax
            simp only [List.length_cons]
            omega
          have hrecC : (!(dirs.map Prod.fst).isEmpty &&
              natLtOpt depth cfg.maxdepth) = true := by
            rw [hne, hlt]
            rfl
          have hmax' : natGtOpt (depth + 1 + p'.length) cfg.maxdepth = false := by
            refine natGtOpt_mono_false _ (depth + (dn :: p').length) _ ?_ hmax
            simp only [List.length_cons]
            omega
          have hmin' : cfg.mindepth ≤ depth + 1 + p'.length := by
            simp only [List.length_cons] at hmin
            omega
          have hdep' : 1 ≤ depth + 1 := by omega
          rw [dmatchAt_cons cfg srcpath depth d dn p' hdep] at hf
          rw [← childDmatchNext_step cfg (dmatchEntry cfg srcpath depth d) dn] at hf
          have hds' : (childDstNext cfg dst dn).isSome = true := by
            rw [childDstNext_isSome]
            exact hds
          rw [List.append_assoc srcpath (dn :: p') [f], List.cons_append]
          rw [WalkObject.walkF]
          rw [if_neg hgtP]
          simp only [List.countP_append]
          rw [eagerMkdirStep_countP cfg dstIsDir dst created _ _
            (fun pp => rfl)]
          rw [if_pos hrecC]
          have hkids : ∀ cr, List.countP
              (isExecSrc (srcpath ++ dn :: (p' ++ [f])))
              (walkChildrenGo
                (fun sp dst2 dm cr2 t =>
                  WalkObject.walkF cfg dstIsDir fuel sp dst2 (depth + 1) dm cr2 t)
                cfg srcpath dst
                (passNextOf (dmatchEntry cfg srcpath depth d))
                (failNextOf (dmatchEntry cfg srcpath depth d)) dirs cr).1
              = 1 := by
            intro cr
            refine walkChildrenGo_countP _ cfg srcpath dst _ _
              (isExecSrc (srcpath ++ dn :: (p' ++ [f]))) dn (p' ++ [f]) ?_ ?_ 1
              dirs cr ?_ ?_
            · intro e hPe
              cases e with
              | mkdirs pp => simp [isExecSrc] at hPe
              | yld q dns fns => simp [isExecSrc] at hPe
              | execCall qs qd =>
                  simp only [isExecSrc, beq_iff_eq] at hPe
                  subst hPe
                  rfl
            · intro m c2 dstN dm cr2 e he q hq
              have h := walkF_src_below cfg dstIsDir fuel c2 (srcpath ++ [m])
                dstN (depth + 1) dm cr2 e he
              cases e with
              | mkdirs pp => cases hq
              | yld q2 dns fns =>
                  injection hq with hq
                  subst hq
                  exact h.1 _ dns fns rfl
              | execCall qs qd =>
                  injection hq with hq
                  subst hq
                  obtain ⟨s, hs, _⟩ := h.2 _ qd rfl
                  exact ⟨s, hs⟩
            · cases hwf with
              | node _ _ hndd _ _ => exact hndd
            · refine Or.inl ⟨c, hlk, ?_⟩
              intro cr2
              have h := ih c (srcpath ++ [dn]) (childDstNext cfg dst dn)
                (depth + 1)
                (childDmatchNext cfg
                  (passNextOf (dmatchEntry cfg srcpath depth d))
                  (failNextOf (dmatchEntry cfg srcpath depth d)) dn) cr2 p' t' f
                hwfc hszc hsub hdep' hmax' hmin' hcm hds' hf
              have hpq : (srcpath ++ [dn]) ++ p' ++ [f] =
                  srcpath ++ dn :: (p' ++ [f]) := by
                simp
              rw [hpq] at h
              exact h
          rw [hkids]
          by_cases hmd : cfg.mindepth ≤ depth
          · rw [if_pos hmd]
            dsimp only []
            rw [List.countP_append]
            have hz1 : List.countP (isExecSrc (srcpath ++ dn :: (p' ++ [f])))
                (copySection cfg srcpath dst
                  (eagerMkdirStep cfg dstIsDir dst created
                    (dirPassesB cfg (dmatchEntry cfg srcpath depth d))).1
                  (eagerMkdirStep cfg dstIsDir dst created
                    (dirPassesB cfg (dmatchEntry cfg srcpath depth d))).2.2
                  (dirPassesB cfg (dmatchEntry cfg srcpath depth d))
                  (fnamesFilteredOf cfg
                    (dirPassesB cfg (dmatchEntry cfg srcpath depth d)) files)).1
                = 0 := by
              rw [List.countP_eq_zero]
              intro e he hPe
              rcases copySection_events cfg srcpath dst _ _ _ _ e he with
                ⟨pp, rfl⟩ | ⟨fn, dd, _, rfl⟩
              · simp [isExecSrc] at hPe
              · simp only [isExecSrc, beq_iff_eq] at hPe
                have := congrArg List.length hPe
                simp only [List.length_append, List.length_cons] at this
                omega
            rw [hz1]
            have hz2 : List.countP (isExecSrc (srcpath ++ dn :: (p' ++ [f])))
                [WEvent.yld srcpath
                  (dnamesFilteredOf cfg
                    (dirPassesB cfg (dmatchEntry cfg srcpath depth d))
                    (dirs.map Prod.fst))
                  (fnamesFilteredOf cfg
                    (dirPassesB cfg (dmatchEntry cfg srcpath depth d)) files)]
                = 0 := rfl
            rw [hz2]
          · rw [if_neg hmd]
            rfl

/-- Every yield of a traversal lies at a relative depth admitted by the
`mindepth`/`maxdepth` window measured from the entry depth. -/
theorem walkF_yld_depth (cfg : WalkCfg) (dstIsDir : List String → Bool) :
    ∀ (fuel : Nat) (t : FSTree) (srcpath : List String)
      (dst : Option (List String)) (depth : Nat) (d : Int)
      (created : List (List String)),
      ∀ e ∈ (WalkObject.walkF cfg dstIsDir fuel srcpath dst depth d created t).1,
        ∀ q dns fns, e = WEvent.yld q dns fns →
          ∃ s, q = srcpath ++ s ∧ cfg.mindepth ≤ depth + s.length ∧
            natGtOpt (depth + s.length) cfg.maxdepth = false := by
  intro fuel
  induction fuel with
  | zero =>
      intro t srcpath dst depth d created e he
      rw [WalkObject.walkF] at he
      simp at he
  | succ fuel ih =>
      intro t srcpath dst depth d created e he
      cases t with
      | node dirs files =>
        rw [WalkObject.walkF] at he
        by_cases hgt : natGtOpt depth cfg.maxdepth = true
        · rw [if_pos hgt] at he; simp at he
        · rw [if_neg hgt] at he
          have hgtF : natGtOpt depth cfg.maxdepth = false := by
            revert hgt
            cases natGtOpt depth cfg.maxdepth <;> simp
          simp only [List.mem_append] at he
          rcases he with (he | he) | he
          · obtain ⟨pp, rfl⟩ := eagerMkdirStep_events _ _ _ _ _ e he
            intro q dns fns h
            cases h
          · by_cases hmd : cfg.mindepth ≤ depth
            · rw [if_pos hmd] at he
              simp only [List.mem_append, List.mem_singleton] at he
              rcases he with he | he
              · rcases copySection_events _ _ _ _ _ _ _ e he with
                  ⟨pp, rfl⟩ | ⟨fn, dd, _, rfl⟩
                · intro q dns fns h; cases h
                · intro q dns fns h; cases h
              · subst he
                intro q dns fns h
                injection h with h1 h2 h3
                subst h1
                refine ⟨[], by simp, ?_, ?_⟩
                · simpa using hmd
                · simpa using hgtF
            · rw [if_neg hmd] at he; simp at he
          · by_cases hrec : (!(dirs.map Prod.fst).isEmpty &&
                natLtOpt depth cfg.maxdepth) = true
            · rw [if_pos hrec] at he
              obtain ⟨dn, c, cr, hmem, he'⟩ :=
                walkChildrenGo_mem _ _ _ _ _ _ _ _ e he
              intro q dns fns h
              obtain ⟨s, rfl, hm, hx⟩ := ih c (srcpath ++ [dn]) _ _ _ cr e he'
                q dns fns h
              refine ⟨dn :: s, by simp, ?_, ?_⟩
              · have : depth + (dn :: s).length = depth + 1 + s.length := by
                  simp only [List.length_cons]
                  omega
                rw [this]
                exact hm
              · have : depth + (dn :: s).length = depth + 1 + s.length := by
                  simp only [List.length_cons]
                  omega
                rw [this]
                exact hx
            · rw [if_neg hrec] at he; simp at he

/-- C1: in a traversal with a copy method and a destination configured,
each directory within the `mindepth`..`maxdepth` window that passes
directory matching is yielded exactly once; its yielded file list is
exactly the include/exclude-filtered file listing, in which each matching
file appears exactly once; and exactly one `CopyMethod.exec` transfer call
is issued for each such file. -/
theorem walk_passing_dir_files_once
    (cfg : WalkCfg) (dstIsDir : List String → Bool) (fuel : Nat)
    (t t' : FSTree) (srcdir d0 p : List String)
    (hwf : FSTree.Wf t) (hfuel : sizeOf t ≤ fuel)
    (hsub : subtreeAt t p = some t')
    (hcm : cfg.copy_method.isSome = true)
    (hmax : natGtOpt (1 + p.length) cfg.maxdepth = false)
    (hmin : cfg.mindepth ≤ 1 + p.length)
    (hpass : dirPassesB cfg
      (dmatchAt cfg srcdir 1 (WalkObject.dmatchInit cfg) p) = true) :
    ((WalkObject.walkF cfg dstIsDir fuel srcdir (some d0) 1
        (WalkObject.dmatchInit cfg) [] t).1.countP (isYldAt (srcdir ++ p)) = 1) ∧
    (∃ dns, WEvent.yld (srcdir ++ p) dns
        (t'.files.filter (nameMatches cfg.fname_rematch cfg.fname_reexcl))
        ∈ (WalkObject.walkF cfg dstIsDir fuel srcdir (some d0) 1
            (WalkObject.dmatchInit cfg) [] t).1) ∧
    (∀ f ∈ t'.files.filter (nameMatches cfg.fname_rematch cfg.fname_reexcl),
        ((t'.files.filter
            (nameMatches cfg.fname_rematch cfg.fname_reexcl)).count f = 1) ∧
        (WalkObject.walkF cfg dstIsDir fuel srcdir (some d0) 1
            (WalkObject.dmatchInit cfg) [] t).1.countP
          (isExecSrc (srcdir ++ p ++ [f])) = 1) := by
  have hffe : fnamesFilteredOf cfg
      (dirPassesB cfg (dmatchAt cfg srcdir 1 (WalkObject.dmatchInit cfg) p))
      t'.files
      = t'.files.filter (nameMatches cfg.fname_rematch cfg.fname_reexcl) := by
    rw [fnamesFilteredOf, hpass]
    simp
  have hyld := walkF_yld_master cfg dstIsDir fuel t srcdir (some d0) 1
    (WalkObject.dmatchInit cfg) [] p t' hwf hfuel hsub (le_refl 1) hmax hmin
  rw [hffe] at hyld
  refine ⟨hyld.1, ⟨_, hyld.2⟩, ?_⟩
  intro f hfm
  constructor
  · have hwt' := Wf_subtreeAt p t t' hwf hsub
    have hnd : (t'.files.filter
        (nameMatches cfg.fname_rematch cfg.fname_reexcl)).Nodup := by
      cases hwt' with
      | node d2 f2 hnd1 hnd2 hch => exact List.Nodup.filter _ hnd2
    exact List.count_eq_one_of_mem hnd hfm
  · refine walkF_exec_master cfg dstIsDir fuel t srcdir (some d0) 1
      (WalkObject.dmatchInit cfg) [] p t' f hwf hfuel hsub (le_refl 1)
      hmax hmin hcm rfl ?_
    rw [hffe]
    exact hfm

set_option maxRecDepth 4000 in
/-- Witness for C1 at a one-directory tree with a single file. -/
theorem walk_passing_dir_files_once_witness :
    ((WalkObject.walkF sampleCfgWet (fun _ => false) 1000 ["src"]
        (some ["dst"]) 1 (WalkObject.dmatchInit sampleCfgWet) []
        (FSTree.node [] ["f0"])).1.countP (isYldAt (["src"] ++ [])) = 1) ∧
    ((WalkObject.walkF sampleCfgWet (fun _ => false) 1000 ["src"]
        (some ["dst"]) 1 (WalkObject.dmatchInit sampleCfgWet) []
        (FSTree.node [] ["f0"])).1.countP
      (isExecSrc (["src"] ++ [] ++ ["f0"])) = 1) := by
  have h := walk_passing_dir_files_once sampleCfgWet (fun _ => false) 1000
    (FSTree.node [] ["f0"]) (FSTree.node [] ["f0"]) ["src"] ["dst"] []
    (FSTree.Wf.node [] ["f0"] (by simp) (by simp)
      (fun c hc => absurd hc (by simp)))
    (by decide) rfl rfl rfl (by decide) (by decide)
  exact ⟨h.1, (h.2.2 "f0" (by decide)).2⟩

/-- C8 counterexample: with `mindepth=2, maxdepth=2` the traversal of
`src/f0, src/a/f1, src/a/b/f2` yields exactly the directory `src/a` — one
level below the source root — with its file list, while `src/a/b`, two
levels below the root, yields nothing. -/
theorem walk_depth_window_selects_children :
    (WalkObject.walkF sampleCfgD2 (fun _ => false) 10 ["src"] none 1
        (WalkObject.dmatchInit sampleCfgD2) [] sampleTree).1 =
      [WEvent.yld ["src", "a"] ["b"] ["f1"]] := by rfl

/-- C8 (amended): with `mindepth=2` and `maxdepth=2` every yielded
directory lies exactly one level below the source root — the code counts
the root itself as depth 1 — so the root and directories two or more
levels below it yield nothing. -/
theorem walk_mindepth2_maxdepth2_yield_depth
    (cfg : WalkCfg) (dstIsDir : List String → Bool) (fuel : Nat) (t : FSTree)
    (srcdir : List String) (dst : Option (List String)) (d : Int)
    (created : List (List String))
    (hm : cfg.mindepth = 2) (hx : cfg.maxdepth = some 2) :
    ∀ e ∈ (WalkObject.walkF cfg dstIsDir fuel srcdir dst 1 d created t).1,
      ∀ q dns fns, e = WEvent.yld q dns fns →
        q.length = srcdir.length + 1 := by
  intro e he q dns fns h
  obtain ⟨s, rfl, hmn, hmx⟩ := walkF_yld_depth cfg dstIsDir fuel t srcdir dst 1
    d created e he q dns fns h
  rw [hm] at hmn
  rw [hx] at hmx
  simp only [natGtOpt, decide_eq_false_iff_not, Nat.not_lt] at hmx
  simp only [List.length_append]
  omega

/-- Witness for the amended C8 statement at the sample tree. -/
theorem walk_mindepth2_maxdepth2_yield_depth_witness :
    (["src", "a"] : List String).length = (["src"] : List String).length + 1 :=
  walk_mindepth2_maxdepth2_yield_depth sampleCfgD2 (fun _ => false) 10
    sampleTree ["src"] none (WalkObject.dmatchInit sampleCfgD2) [] rfl rfl
    (WEvent.yld ["src", "a"] ["b"] ["f1"]) (by decide)
    ["src", "a"] ["b"] ["f1"] rfl
